import Mathlib

/-!
Verification development for the iptables-log-tui repository.

The definitions below are shallow embeddings of the Go source:
  * `internal/tailer/tailer.go`  : the poll-based file tailer (`Tailer.run`)
  * `internal/parser`            : `LogEntry`, `Action`, `ParseLine`
  * `internal/classifier`        : `Categorize`
  * `internal/model/model.go`    : the Bubble Tea `Model`, `Update`,
                                   `handleKey`, `addEntry`, `applyFilters`
  * `internal/whois/whois.go`    : the `Result` record (the subprocess call
                                   itself is an external effect; only the
                                   message carrying its result is modelled)

Strings are mostly handled as `List Char` so that every definition is
executable and decidable on concrete inputs.  Go `int` counters whose values
are always small non-negative numbers are modelled as `Nat`; the cursor, which
the Go code can drive to `-1`, is modelled as `Int`.
-/

set_option maxRecDepth 8000

namespace IptablesTui

/-! ## Tailer (internal/tailer/tailer.go)

`Tailer.run` loops: drain all currently available data with
`bufio.Reader.ReadString` of a newline, remember the file offset, sleep for the
poll interval, check for rotation (current size below the remembered offset:
reopen at offset 0), otherwise re-seek to the remembered offset, and repeat.

We model the file contents visible to one poll cycle as a `List Char` and a
byte offset as a `Nat` (each `Char` in the model stands for one byte). -/

/-- One `bufio.Reader.ReadString '\n'` drain of a byte sequence: the chunks
returned by successive calls, each chunk including its trailing newline when
one is present; a final unterminated chunk is returned as-is (together with
`io.EOF`, which `run` tests only *after* processing the chunk). -/
def splitChunks : List Char → List (List Char)
  | [] => []
  | c :: rest =>
    if c = '\n' then
      ['\n'] :: splitChunks rest
    else
      match splitChunks rest with
      | [] => [[c]]
      | chunk :: chunks => (c :: chunk) :: chunks

/-- The newline-stripping loop of `run` (tailer.go lines 60-63): drop trailing
`'\n'` and `'\r'` bytes from a chunk. -/
def stripNl (l : List Char) : List Char :=
  (l.reverse.dropWhile (fun c => c == '\n' || c == '\r')).reverse

/-- The lines a single drain loop sends on `Lines`, reading `content` from byte
offset `off`: every chunk produced by `ReadString`, newline-stripped, and sent
only when non-empty (tailer.go lines 56-79).  Note that the final chunk is
sent even when it carried `io.EOF`, i.e. even when its terminating newline has
not been written yet: the code checks `len(line) > 0` before checking
`err == io.EOF`. -/
def drainFrom (content : List Char) (off : Nat) : List (List Char) :=
  (splitChunks (content.drop off)).filterMap fun chunk =>
    let s := stripNl chunk
    if s.isEmpty then none else some s

/-- Result of one poll cycle of `Tailer.run`. -/
structure PollResult where
  emitted : List (List Char)
  newOffset : Nat
  errorEmitted : Bool
deriving Repr, DecidableEq

/-- One poll cycle of `Tailer.run` (tailer.go lines 86-110 followed by the
drain loop of lines 56-83): after the sleep, `os.Stat` is consulted; if the
file is now smaller than the remembered offset `off` the file is closed and
reopened from the beginning (`openFile path true`, offset 0) — emitting on
`Errors` only if that reopen fails (`reopenFails`) — otherwise the reader is
repositioned at `off`; then all available data is drained and the offset is
updated to the position reached by the drain. -/
def pollCycle (off : Nat) (content : List Char) (reopenFails : Bool) : PollResult :=
  if content.length < off then
    if reopenFails then
      { emitted := [], newOffset := off, errorEmitted := true }
    else
      { emitted := drainFrom content 0
        newOffset := content.length
        errorEmitted := false }
  else
    { emitted := drainFrom content off
      newOffset := content.length
      errorEmitted := false }

/-! ## String helpers (Go standard library operations used by the source) -/

/-- Executable containment test: `needle` occurs as a contiguous
subsequence of `hay`. -/
def infixOfB (needle hay : List Char) : Bool :=
  match hay with
  | [] => needle.isEmpty
  | _ :: t => needle.isPrefixOf hay || infixOfB needle t

/-- `strings.Contains s sub`. -/
def containsStr (s sub : String) : Bool :=
  infixOfB sub.data s.data

/-- `strings.ToUpper` (character-wise, which agrees with Go on ASCII). -/
def toUpperStr (s : String) : String :=
  String.mk (s.data.map Char.toUpper)

/-- `strings.ToLower` (character-wise, which agrees with Go on ASCII). -/
def toLowerStr (s : String) : String :=
  String.mk (s.data.map Char.toLower)

/-! ## Parser data model (internal/parser, `LogEntry` and `Action`)

The Go field `Prefix` is called `pfx` here, `In`/`Out` are `inIf`/`outIf`,
and `Len` is `lenB`; everything else keeps the Go name. -/

/-- A parsed `time.Time` as produced by `parseTimestamp`.  `syslogYear` marks
the syslog path, where the Go code substitutes the current year via
`time.Date(now.Year(), ...)`; the model leaves `year := 0` there.  `zoneMin`
is the zone offset in minutes carried by an RFC 3339 timestamp. -/
structure GoTime where
  year : Nat
  month : Nat
  day : Nat
  hour : Nat
  minute : Nat
  second : Nat
  nanos : Nat
  zoneMin : Int
  syslogYear : Bool
deriving Repr, DecidableEq

/-- `parser.LogEntry`. -/
structure LogEntry where
  timestamp : GoTime
  hostname : String
  pfx : String
  inIf : String
  outIf : String
  src : String
  dst : String
  proto : String
  srcPort : Nat
  dstPort : Nat
  ttl : Nat
  lenB : Nat
  raw : String
deriving Repr, DecidableEq

/-- The zero value of `parser.LogEntry`. -/
def zeroEntry : LogEntry :=
  { timestamp := ⟨0, 0, 0, 0, 0, 0, 0, 0, false⟩
    hostname := "", pfx := "", inIf := "", outIf := "", src := "", dst := ""
    proto := "", srcPort := 0, dstPort := 0, ttl := 0, lenB := 0, raw := "" }

/-- `LogEntry.Action` (part_009 lines 29-44): the action derived from the
prefix by case-insensitive substring tests, DROP/BLOCK first, then ACCEPT,
then REJECT; otherwise the prefix verbatim when non-empty, else UNKNOWN. -/
def LogEntry.action (e : LogEntry) : String :=
  let p := toUpperStr e.pfx
  if containsStr p "DROP" || containsStr p "BLOCK" then "DROP"
  else if containsStr p "ACCEPT" then "ACCEPT"
  else if containsStr p "REJECT" then "REJECT"
  else if e.pfx != "" then e.pfx
  else "UNKNOWN"

/-- The `protoNames` table (part_009 lines 133-269), IANA protocol numbers. -/
def protoNames : List (String × String) :=
  [("0", "HOPOPT"), ("1", "ICMP"), ("2", "IGMP"), ("3", "GGP"), ("4", "IPv4"),
   ("5", "ST"), ("6", "TCP"), ("7", "CBT"), ("8", "EGP"), ("9", "IGP"),
   ("10", "BBN-RCC-MON"), ("11", "NVP-II"), ("12", "PUP"), ("14", "EMCON"),
   ("15", "XNET"), ("16", "CHAOS"), ("17", "UDP"), ("18", "MUX"),
   ("19", "DCN-MEAS"), ("20", "HMP"), ("21", "PRM"), ("22", "XNS-IDP"),
   ("23", "TRUNK-1"), ("24", "TRUNK-2"), ("25", "LEAF-1"), ("26", "LEAF-2"),
   ("27", "RDP"), ("28", "IRTP"), ("29", "ISO-TP4"), ("30", "NETBLT"),
   ("31", "MFE-NSP"), ("32", "MERIT-INP"), ("33", "DCCP"), ("34", "3PC"),
   ("35", "IDPR"), ("36", "XTP"), ("37", "DDP"), ("38", "IDPR-CMTP"),
   ("39", "TP++"), ("40", "IL"), ("41", "IPv6"), ("42", "SDRP"),
   ("43", "IPv6-Route"), ("44", "IPv6-Frag"), ("45", "IDRP"), ("46", "RSVP"),
   ("47", "GRE"), ("48", "DSR"), ("49", "BNA"), ("50", "ESP"), ("51", "AH"),
   ("52", "I-NLSP"), ("54", "NARP"), ("55", "Min-IPv4"), ("56", "TLSP"),
   ("57", "SKIP"), ("58", "IPv6-ICMP"), ("59", "IPv6-NoNxt"),
   ("60", "IPv6-Opts"), ("62", "CFTP"), ("64", "SAT-EXPAK"),
   ("65", "KRYPTOLAN"), ("66", "RVD"), ("67", "IPPC"), ("69", "SAT-MON"),
   ("70", "VISA"), ("71", "IPCV"), ("72", "CPNX"), ("73", "CPHB"),
   ("74", "WSN"), ("75", "PVP"), ("76", "BR-SAT-MON"), ("77", "SUN-ND"),
   ("78", "WB-MON"), ("79", "WB-EXPAK"), ("80", "ISO-IP"), ("81", "VMTP"),
   ("82", "SECURE-VMTP"), ("83", "VINES"), ("84", "IPTM"),
   ("85", "NSFNET-IGP"), ("86", "DGP"), ("87", "TCF"), ("88", "EIGRP"),
   ("89", "OSPF"), ("90", "Sprite-RPC"), ("91", "LARP"), ("92", "MTP"),
   ("93", "AX.25"), ("94", "IPIP"), ("96", "SCC-SP"), ("97", "ETHERIP"),
   ("98", "ENCAP"), ("100", "GMTP"), ("101", "IFMP"), ("102", "PNNI"),
   ("103", "PIM"), ("104", "ARIS"), ("105", "SCPS"), ("106", "QNX"),
   ("107", "A/N"), ("108", "IPComp"), ("109", "SNP"), ("110", "Compaq-Peer"),
   ("111", "IPX-in-IP"), ("112", "VRRP"), ("113", "PGM"), ("115", "L2TP"),
   ("116", "DDX"), ("117", "IATP"), ("118", "STP"), ("119", "SRP"),
   ("120", "UTI"), ("121", "SMP"), ("123", "PTP"), ("124", "ISIS"),
   ("125", "FIRE"), ("126", "CRTP"), ("127", "CRUDP"), ("128", "SSCOPMCE"),
   ("129", "IPLT"), ("130", "SPS"), ("131", "PIPE"), ("132", "SCTP"),
   ("133", "FC"), ("134", "RSVP-E2E-IGNORE"), ("135", "Mobility"),
   ("136", "UDPLite"), ("137", "MPLS-in-IP"), ("138", "MANET"),
   ("139", "HIP"), ("140", "Shim6"), ("141", "WESP"), ("142", "ROHC"),
   ("143", "Ethernet")]

/-- `normalizeProto` (part_009 lines 272-278). -/
def normalizeProto (p : String) : String :=
  let up := toUpperStr p
  match (protoNames.find? fun q => q.1 == up) with
  | some q => q.2
  | none => up

/-! ## Classifier (internal/classifier, src/unnamed/part_003)

IP addresses are modelled as lists of bytes (length 4 or 16), mirroring
`net.IP`; `IPNet` mirrors `net.IPNet`. -/

def isDigitCh (c : Char) : Bool := '0' ≤ c && c ≤ '9'

def isHexCh (c : Char) : Bool :=
  isDigitCh c || ('a' ≤ c && c ≤ 'f') || ('A' ≤ c && c ≤ 'F')

def hexVal (c : Char) : Nat :=
  if isDigitCh c then c.toNat - 48
  else if 'a' ≤ c && c ≤ 'f' then c.toNat - 87
  else c.toNat - 55

def digitsVal (l : List Char) : Nat :=
  l.foldl (fun acc c => acc * 10 + (c.toNat - 48)) 0

/-- Split a character list on a separator, keeping empty pieces. -/
def splitOnCh (sep : Char) : List Char → List (List Char)
  | [] => [[]]
  | c :: r =>
    if c = sep then [] :: splitOnCh sep r
    else
      match splitOnCh sep r with
      | [] => [[c]]
      | p :: ps => (c :: p) :: ps

/-- One dotted-quad field of an IPv4 address: decimal, value at most 255, no
leading zero (as in `net/netip`, used by `net.ParseIP` in current Go). -/
def parseOctet (l : List Char) : Option Nat :=
  if l.isEmpty then none
  else if !(l.all isDigitCh) then none
  else if 1 < l.length && l.headD '0' == '0' then none
  else
    let v := digitsVal l
    if v ≤ 255 then some v else none

/-- `net.ParseIP` on a dotted-quad IPv4 address, producing the four bytes. -/
def parseV4 (s : List Char) : Option (List Nat) :=
  match (splitOnCh '.' s).mapM parseOctet with
  | some [a, b, c, d] => some [a, b, c, d]
  | _ => none

/-- One 16-bit hexadecimal group of an IPv6 address (1-4 hex digits). -/
def parseHexGroup (l : List Char) : Option Nat :=
  if l.isEmpty || 4 < l.length || !(l.all isHexCh) then none
  else some (l.foldl (fun acc c => acc * 16 + hexVal c) 0)

/-- Parse a colon-separated run of IPv6 groups into bytes; the final group may
be an embedded dotted-quad IPv4 address when `v4Tail` is allowed. -/
def parseGroups (v4Tail : Bool) (parts : List (List Char)) : Option (List Nat) :=
  match parts with
  | [] => some []
  | [p] =>
    if v4Tail && p.contains '.' then parseV4 p
    else (parseHexGroup p).map fun g => [g / 256, g % 256]
  | p :: rest =>
    match parseHexGroup p, parseGroups v4Tail rest with
    | some g, some bs => some ([g / 256, g % 256] ++ bs)
    | _, _ => none

/-- Locate the first `::` in an IPv6 literal, returning the text on both
sides, or `none` when there is no `::`. -/
def splitDC : List Char → Option (List Char × List Char)
  | [] => none
  | [_] => none
  | a :: b :: r =>
    if a = ':' && b = ':' then some ([], r)
    else (splitDC (b :: r)).map fun q => (a :: q.1, q.2)

/-- `net.ParseIP` on an IPv6 literal: groups of 1-4 hex digits separated by
single colons, at most one `::` standing for a run of at least one zero group,
and an optional embedded dotted-quad tail; result is the 16 bytes. -/
def parseV6 (s : List Char) : Option (List Nat) :=
  match splitDC s with
  | none =>
    match parseGroups true (splitOnCh ':' s) with
    | some bs => if bs.length == 16 then some bs else none
    | none => none
  | some (left, right) =>
    if splitDC right matches some _ then none
    else
      let lparts := if left.isEmpty then [] else splitOnCh ':' left
      let rparts := if right.isEmpty then [] else splitOnCh ':' right
      match parseGroups false lparts, parseGroups true rparts with
      | some lb, some rb =>
        if lb.length + rb.length ≤ 14 then
          some (lb ++ List.replicate (16 - lb.length - rb.length) 0 ++ rb)
        else none
      | _, _ => none

/-- `net.ParseIP`: the first of `'.'` or `':'` encountered decides the
address family; neither present means not an IP address. -/
def firstSep : List Char → Option Char
  | [] => none
  | c :: r => if c = '.' || c = ':' then some c else firstSep r

/-- `net.ParseIP` on a string. -/
def parseIPG (s : String) : Option (List Nat) :=
  match firstSep s.data with
  | some '.' => parseV4 s.data
  | some ':' => parseV6 s.data
  | _ => none

/-- `net.IP.To4`: a 4-byte address as-is, a 16-byte IPv4-mapped address
reduced to its last four bytes, anything else `none`. -/
def to4 (ip : List Nat) : Option (List Nat) :=
  if ip.length == 4 then some ip
  else if ip.length == 16 && (ip.take 10).all (· == 0)
      && ip.getD 10 0 == 255 && ip.getD 11 0 == 255 then
    some (ip.drop 12)
  else none

/-- `net.IPNet`. -/
structure IPNet where
  addr : List Nat
  mask : List Nat
deriving Repr, DecidableEq

/-- `net.networkNumberAndMask`. -/
def networkNumberAndMask (n : IPNet) : Option (List Nat × List Nat) :=
  let ip := match to4 n.addr with
    | some p => p
    | none => n.addr
  if ip.length ≠ 4 && ip.length ≠ 16 then none
  else if n.mask.length == 4 then
    if ip.length == 4 then some (ip, n.mask) else none
  else if n.mask.length == 16 then
    if ip.length == 4 then some (ip, n.mask.drop 12) else some (ip, n.mask)
  else none

/-- `net.IPNet.Contains`. -/
def ipnetContains (n : IPNet) (x : List Nat) : Bool :=
  match networkNumberAndMask n with
  | none => false
  | some (nn, m) =>
    let ip := match to4 x with
      | some p => p
      | none => x
    ip.length == nn.length &&
      (List.range ip.length).all fun i =>
        (nn.getD i 0).land (m.getD i 0) == (ip.getD i 0).land (m.getD i 0)

/-- The two multicast ranges installed by the classifier's `init`:
`net.ParseCIDR "224.0.0.0/4"` and `net.ParseCIDR "ff00::/8"`. -/
def multicastRanges : List IPNet :=
  [{ addr := [224, 0, 0, 0], mask := [240, 0, 0, 0] },
   { addr := 255 :: List.replicate 15 0, mask := 255 :: List.replicate 15 0 }]

/-- `Classifier.Categorize` (part_003 lines 38-54): unparseable strings are
External; multicast membership is tested before the captured local subnets;
anything else is External.  `subnets` is the interface snapshot taken by
`New`. -/
def categorizeIP (subnets : List IPNet) (s : String) : String :=
  match parseIPG s with
  | none => "External"
  | some ip =>
    if multicastRanges.any (fun r => ipnetContains r ip) then "Multicast"
    else if subnets.any (fun r => ipnetContains r ip) then "Internal"
    else "External"

/-! ## Whois result (internal/whois/whois.go) -/

/-- `whois.Result`. -/
structure WhoisResult where
  subnet : String
  netName : String
  asn : String
  org : String
deriving Repr, DecidableEq

/-! ## Model (internal/model/model.go) -/

/-- `ui.Filters`. -/
structure Filters where
  action : String
  proto : String
  ipSubstr : String
deriving Repr, DecidableEq

/-- `ui.Stats`: the running counters.  Go maps with missing keys reading as
zero are modelled as total functions with default 0. -/
structure Stats where
  total : Nat
  byAction : String → Nat
  byProto : String → Nat
  byIface : String → Nat
  bySrcIP : String → Nat
  byDstPort : String → Nat

/-- `ui.NewStats`. -/
def newStats : Stats :=
  ⟨0, fun _ => 0, fun _ => 0, fun _ => 0, fun _ => 0, fun _ => 0⟩

/-- `m[k]++` on a Go counter map. -/
def bump (f : String → Nat) (k : String) : String → Nat :=
  fun j => if j = k then f j + 1 else f j

/-- Lookup in the whois cache (`m.whoisCache[src]` presence and value). -/
def cacheLookup (c : List (String × WhoisResult)) (k : String) : Option WhoisResult :=
  (c.find? fun p => p.1 == k).map (·.2)

/-- Go map assignment `m.whoisCache[ip] = info`. -/
def cacheInsert (c : List (String × WhoisResult)) (k : String) (v : WhoisResult) :
    List (String × WhoisResult) :=
  if (c.find? fun p => p.1 == k).isSome then
    c.map fun p => if p.1 == k then (k, v) else p
  else c ++ [(k, v)]

/-- `m.whoisPending[src]` (a `map[string]bool` read, default false). -/
def pendingHas (p : List String) (k : String) : Bool := p.contains k

/-- `m.whoisPending[src] = true`. -/
def pendingAdd (p : List String) (k : String) : List String :=
  if p.contains k then p else p ++ [k]

/-- `delete(m.whoisPending, ip)`. -/
def pendingDel (p : List String) (k : String) : List String :=
  p.filter fun x => !(x == k)

/-- The root `model.Model`.  The tailer handle is not carried (stopping it is
an external effect represented by the `quit` command); terminal dimensions
are kept for fidelity of `WindowSizeMsg`. -/
structure Model where
  all : List LogEntry
  filtered : List LogEntry
  cursor : Int
  tab : Nat
  filters : Filters
  searching : Bool
  searchInput : String
  detailOpen : Bool
  detailEntry : LogEntry
  stats : Stats
  categorize : String → String
  whoisCache : List (String × WhoisResult)
  whoisPending : List String
  err : Option String
  width : Int
  height : Int

/-- `model.New`. -/
def newModel (cat : String → String) : Model :=
  { all := [], filtered := [], cursor := 0, tab := 0
    filters := ⟨"", "", ""⟩, searching := false, searchInput := ""
    detailOpen := false, detailEntry := zeroEntry, stats := newStats
    categorize := cat, whoisCache := [], whoisPending := []
    err := none, width := 0, height := 0 }

/-- The messages `Update` handles.  `other` stands for any message of a type
not matched by the switch (e.g. the textinput blink tick), which falls through
to the search-propagation branch. -/
inductive Msg where
  | winSize (w h : Int)
  | tailerErr (e : String)
  | newLine (s : String)
  | whoisResult (ip : String) (info : WhoisResult)
  | key (k : String)
  | other
deriving Repr, DecidableEq

/-- The side-effecting commands the model returns: `tea.Quit`, the async
whois lookup closure (which will deliver `WhoisMsg{ip, whois.Lookup(ip)}`),
and `textinput.Blink`. -/
inductive Cmd where
  | quit
  | whoisQuery (ip : String)
  | blink
deriving Repr, DecidableEq

/-- `Model.matchesFilter` (model.go lines 335-350). -/
def matchesFilter (flt : Filters) (e : LogEntry) : Bool :=
  if flt.action != "" && e.action != flt.action then false
  else if flt.proto != "" && e.proto != flt.proto then false
  else if flt.ipSubstr != ""
      && !(containsStr (toLowerStr e.src) (toLowerStr flt.ipSubstr))
      && !(containsStr (toLowerStr e.dst) (toLowerStr flt.ipSubstr)) then false
  else true

/-- `Model.addEntry` (model.go lines 289-315). -/
def addEntry (m : Model) (e : LogEntry) : Model :=
  let stats :=
    { total := m.stats.total + 1
      byAction := bump m.stats.byAction e.action
      byProto := bump m.stats.byProto e.proto
      byIface := if e.inIf != "" then bump m.stats.byIface e.inIf else m.stats.byIface
      bySrcIP := bump m.stats.bySrcIP e.src
      byDstPort :=
        if e.dstPort != 0 then bump m.stats.byDstPort (toString e.dstPort)
        else m.stats.byDstPort }
  let m1 := { m with all := m.all ++ [e], stats := stats }
  if matchesFilter m1.filters e then
    let filtered := m1.filtered ++ [e]
    { m1 with
      filtered := filtered
      cursor :=
        if !m1.detailOpen && m1.cursor == (filtered.length : Int) - 2 then
          (filtered.length : Int) - 1
        else m1.cursor }
  else m1

/-- `Model.applyFilters` (model.go lines 318-332). -/
def applyFilters (m : Model) : Model :=
  let filtered := m.all.filter fun e => matchesFilter m.filters e
  let c1 := if m.cursor ≥ (filtered.length : Int) then (filtered.length : Int) - 1 else m.cursor
  let c2 := if c1 < 0 then 0 else c1
  { m with filtered := filtered, cursor := c2 }

/-- Models the external `bubbles/textinput` widget text editing: a
single-character key appends, backspace deletes the last character, other
keys leave the text unchanged.  No theorem below depends on the specifics of
this function; it only stands in for `searchInput.Update`. -/
def editInput (s : String) (k : String) : String :=
  if k == "backspace" then s.dropRight 1
  else if k.length == 1 then s ++ k
  else s

/-- The Logs-tab key switch of `handleKey` (model.go lines 204-276). -/
def logsKey (m : Model) (k : String) : Model × Option Cmd :=
  if k == "up" || k == "k" then
    (if m.cursor > 0 then { m with cursor := m.cursor - 1 } else m, none)
  else if k == "down" || k == "j" then
    (if m.cursor < (m.filtered.length : Int) - 1 then { m with cursor := m.cursor + 1 } else m,
     none)
  else if k == "pgup" then
    let c := m.cursor - 20
    ({ m with cursor := if c < 0 then 0 else c }, none)
  else if k == "pgdown" then
    let c := m.cursor + 20
    ({ m with cursor := if c ≥ (m.filtered.length : Int) then (m.filtered.length : Int) - 1 else c },
     none)
  else if k == "enter" then
    if 0 < m.filtered.length && m.cursor < (m.filtered.length : Int) then
      let e := m.filtered.getD m.cursor.toNat zeroEntry
      let m1 := { m with detailEntry := e, detailOpen := true }
      if m1.categorize e.src == "External" && !(pendingHas m1.whoisPending e.src) then
        if (cacheLookup m1.whoisCache e.src).isSome then (m1, none)
        else ({ m1 with whoisPending := pendingAdd m1.whoisPending e.src },
              some (.whoisQuery e.src))
      else (m1, none)
    else (m, none)
  else if k == "d" then
    (applyFilters { m with filters :=
      { m.filters with action := if m.filters.action == "DROP" then "" else "DROP" } }, none)
  else if k == "a" then
    (applyFilters { m with filters :=
      { m.filters with action := if m.filters.action == "ACCEPT" then "" else "ACCEPT" } }, none)
  else if k == "t" then
    (applyFilters { m with filters :=
      { m.filters with proto := if m.filters.proto == "TCP" then "" else "TCP" } }, none)
  else if k == "u" then
    (applyFilters { m with filters :=
      { m.filters with proto := if m.filters.proto == "UDP" then "" else "UDP" } }, none)
  else if k == "/" then
    ({ m with searching := true }, some .blink)
  else if k == "esc" then
    (applyFilters { m with filters := ⟨"", "", ""⟩, searchInput := "" }, none)
  else (m, none)

/-- `Model.handleKey` (model.go lines 150-286).  The Go code checks quit,
then the open detail overlay, then the open search input, then tab switching,
then Logs-tab actions, then the Filters-tab clear key. -/
def handleKey (m : Model) (k : String) : Model × Option Cmd :=
  if k == "q" || k == "ctrl+c" then (m, some .quit)
  else if m.detailOpen then
    if k == "esc" || k == "enter" then
      ({ m with detailOpen := false,
                cursor :=
                  if 0 < m.filtered.length then (m.filtered.length : Int) - 1
                  else m.cursor }, none)
    else (m, none)
  else if m.searching then
    let m1 :=
      if k == "esc" || k == "enter" then
        applyFilters { m with searching := false
                              filters := { m.filters with ipSubstr := m.searchInput } }
      else m
    let si := editInput m1.searchInput k
    (applyFilters { m1 with searchInput := si, filters := { m1.filters with ipSubstr := si } },
     none)
  else if k == "1" then ({ m with tab := 0 }, none)
  else if k == "2" then ({ m with tab := 1 }, none)
  else if k == "3" then ({ m with tab := 2 }, none)
  else if k == "tab" then ({ m with tab := (m.tab + 1) % 3 }, none)
  else
    let r := if m.tab == 0 then logsKey m k else (m, none)
    if r.1.tab == 2 && k == "c" then
      (applyFilters { r.1 with filters := ⟨"", "", ""⟩, searchInput := "" }, r.2)
    else r

/-! ## Regular-expression engine

`ParseLine` is driven by three `regexp.MustCompile` patterns.  Go's regexp
package guarantees Perl-style leftmost-first match semantics, which for an
anchored pattern is exactly what a priority-ordered backtracking search from
position 0 finds first.  The engine below enumerates, for a pattern and an
input, all (consumed-length, captures) pairs in backtracking priority order;
the first element corresponds to the match `FindStringSubmatch` reports.
A star never iterates on an empty-width match (as in real engines), which
bounds its unrolling by the input length. -/

/-- Capture environment: group index to captured text; `none` means the group
did not participate in the match (reported as `""` by Go). -/
def Caps := Nat → Option (List Char)

def emptyCaps : Caps := fun _ => none

def setCap (i : Nat) (v : List Char) (c : Caps) : Caps :=
  fun j => if j = i then some v else c j

/-- Later captures (the second argument) win, as in a sequential match. -/
def mergeCaps (c1 c2 : Caps) : Caps :=
  fun j =>
    match c2 j with
    | some v => some v
    | none => c1 j

/-- Regular-expression abstract syntax: character classes as predicates,
greedy and lazy repetition, optional parts, and numbered capture groups. -/
inductive RE where
  | eps
  | sym (p : Char → Bool)
  | seq (r1 r2 : RE)
  | alt (r1 r2 : RE)
  | star (r : RE) (greedy : Bool)
  | opt (r : RE) (greedy : Bool)
  | group (i : Nat) (r : RE)

/-- Star unrolling: each iteration must consume at least one character, and
`fuel` (initialised to the input length) bounds the number of iterations.
Greedy stars put longer matches first, lazy stars the empty match first. -/
def starIter (m1 : List Char → List (Nat × Caps)) (greedy : Bool) :
    Nat → List Char → List (Nat × Caps)
  | 0, _ => [(0, emptyCaps)]
  | fuel + 1, s =>
    let tails :=
      ((m1 s).filter fun r => 0 < r.1).flatMap fun r =>
        (starIter m1 greedy fuel (s.drop r.1)).map fun r2 =>
          (r.1 + r2.1, mergeCaps r.2 r2.2)
    if greedy then tails ++ [(0, emptyCaps)] else (0, emptyCaps) :: tails

/-- All matches of `re` against a prefix of `s`, as (consumed length,
captures), in backtracking priority order. -/
def msplit : RE → List Char → List (Nat × Caps)
  | .eps, _ => [(0, emptyCaps)]
  | .sym p, s =>
    match s with
    | [] => []
    | c :: _ => if p c then [(1, emptyCaps)] else []
  | .seq r1 r2, s =>
    (msplit r1 s).flatMap fun a =>
      (msplit r2 (s.drop a.1)).map fun b => (a.1 + b.1, mergeCaps a.2 b.2)
  | .alt r1 r2, s => msplit r1 s ++ msplit r2 s
  | .star r g, s => starIter (msplit r) g s.length s
  | .opt r g, s =>
    if g then msplit r s ++ [(0, emptyCaps)] else (0, emptyCaps) :: msplit r s
  | .group i r, s => (msplit r s).map fun a => (a.1, setCap i (s.take a.1) a.2)

/-- `FindStringSubmatch` of a `^`-anchored pattern: the priority-first match
starting at position 0, or `none`. -/
def findSubmatch (re : RE) (s : List Char) : Option (Nat × Caps) :=
  (msplit re s).head?

/-- `FindStringSubmatch` of an unanchored pattern: try successive start
positions left to right (leftmost match), returning the captures of the
first match found. -/
def findCaps (re : RE) : List Char → Option Caps
  | [] => ((msplit re []).head?).map (·.2)
  | s@(_ :: rest) =>
    match (msplit re s).head? with
    | some r => some r.2
    | none => findCaps re rest

/-- Supporting the `\b` in `lenRe`: since the pattern right of the boundary
starts with the word character `L`, the boundary holds exactly when the
preceding character (if any) is not a word character. -/
def isWordCh (c : Char) : Bool :=
  isDigitCh c || ('a' ≤ c && c ≤ 'z') || ('A' ≤ c && c ≤ 'Z') || c == '_'

/-- Unanchored leftmost search for `\b`-prefixed `re` (whose first character
class is a word character): only positions preceded by a non-word character
(or the start of the input) can match. -/
def findCapsB (re : RE) (prev : Option Char) : List Char → Option Caps
  | [] => none
  | s@(c :: rest) =>
    if (match prev with | none => true | some q => !isWordCh q) then
      match (msplit re s).head? with
      | some r => some r.2
      | none => findCapsB re (some c) rest
    else findCapsB re (some c) rest

/-! ### The three patterns of the parser

`logLineRe` (part_009 lines 78-82):
`^(\d{4}-\d{2}-\d{2}T\S+|\w{3}\s+\d+\s+[\d:]+)\s+(\S+)\s+kernel:` then
`.*?\[?([^\]]*?)\]?\s+IN=(\S*)\s+OUT=(\S*)` then
`.*?SRC=(\S+)\s+DST=(\S+).*?PROTO=(\S+)(?:.*?SPT=(\d+))?(?:.*?DPT=(\d+))?`.

RE2 character classes: `\s` is tab, newline, form feed, carriage return and
space; `\w` is `[0-9A-Za-z_]`; `.` is any character except newline. -/

def isSpaceRe (c : Char) : Bool :=
  c == ' ' || c == '\t' || c == '\n' || c == '\x0c' || c == '\r'

def litRE (w : List Char) : RE :=
  w.foldr (fun ch r => .seq (.sym fun c => c == ch) r) .eps

def dotRE : RE := .sym fun c => !(c == '\n')

def lazyDots : RE := .star dotRE false

def wsPlus : RE := .seq (.sym isSpaceRe) (.star (.sym isSpaceRe) true)

def nonSpaceStar : RE := .star (.sym fun c => !isSpaceRe c) true

def nonSpacePlus : RE := .seq (.sym fun c => !isSpaceRe c) nonSpaceStar

def digPlus : RE := .seq (.sym isDigitCh) (.star (.sym isDigitCh) true)

def digColonPlus : RE :=
  .seq (.sym fun c => isDigitCh c || c == ':') (.star (.sym fun c => isDigitCh c || c == ':') true)

/-- `\d{4}-\d{2}-\d{2}T\S+` (the ISO timestamp alternative). -/
def tsIso : RE :=
  .seq (.sym isDigitCh) (.seq (.sym isDigitCh) (.seq (.sym isDigitCh) (.seq (.sym isDigitCh)
    (.seq (.sym fun c => c == '-') (.seq (.sym isDigitCh) (.seq (.sym isDigitCh)
      (.seq (.sym fun c => c == '-') (.seq (.sym isDigitCh) (.seq (.sym isDigitCh)
        (.seq (.sym fun c => c == 'T') nonSpacePlus))))))))))

/-- `\w{3}\s+\d+\s+[\d:]+` (the syslog timestamp alternative). -/
def tsSyslog : RE :=
  .seq (.sym isWordCh) (.seq (.sym isWordCh) (.seq (.sym isWordCh)
    (.seq wsPlus (.seq digPlus (.seq wsPlus digColonPlus)))))

def tsAlt : RE := .alt tsIso tsSyslog

/-- `(?:.*?SPT=(\d+))?` — group 9. -/
def reOptSPT : RE :=
  .opt (.seq lazyDots (.seq (litRE "SPT=".data) (.group 9 digPlus))) true

/-- `(?:.*?DPT=(\d+))?` — group 10. -/
def reOptDPT : RE :=
  .opt (.seq lazyDots (.seq (litRE "DPT=".data) (.group 10 digPlus))) true

/-- `.*?PROTO=(\S+)(?:...)?(?:...)?` — group 8 and the optional port groups. -/
def reProto : RE :=
  .seq lazyDots (.seq (litRE "PROTO=".data)
    (.seq (.group 8 nonSpacePlus) (.seq reOptSPT reOptDPT)))

/-- `(\S+)` for DST (group 7) followed by the protocol part. -/
def reDst : RE := .seq (.group 7 nonSpacePlus) reProto

/-- `.*?SRC=(\S+)\s+DST=` — groups 6 and 7 and onward. -/
def reSrc : RE :=
  .seq lazyDots (.seq (litRE "SRC=".data)
    (.seq (.group 6 nonSpacePlus) (.seq wsPlus (.seq (litRE "DST=".data) reDst))))

/-- `OUT=(\S*)` — group 5 — and onward. -/
def reOut : RE := .seq (litRE "OUT=".data) (.seq (.group 5 nonSpaceStar) reSrc)

/-- `IN=(\S*)\s+OUT=` — group 4 — and onward. -/
def reIn : RE := .seq (litRE "IN=".data) (.seq (.group 4 nonSpaceStar) (.seq wsPlus reOut))

/-- `.*?\[?([^\]]*?)\]?\s+IN=` — group 3 — and onward. -/
def reBrack : RE :=
  .seq lazyDots (.seq (.opt (.sym fun c => c == '[') true)
    (.seq (.group 3 (.star (.sym fun c => !(c == ']')) false))
      (.seq (.opt (.sym fun c => c == ']') true) (.seq wsPlus reIn))))

/-- The whole `logLineRe`: timestamp (group 1), hostname (group 2),
`kernel:`, then the rest. -/
def logRe : RE :=
  .seq (.group 1 tsAlt) (.seq wsPlus (.seq (.group 2 nonSpacePlus)
    (.seq wsPlus (.seq (litRE "kernel:".data) reBrack))))

/-- `ttlRe` = `TTL=(\d+)` (capture group 1). -/
def ttlPat : RE := .seq (litRE "TTL=".data) (.group 1 digPlus)

/-- `lenRe` = `\bLEN=(\d+)` (capture group 1); the boundary is handled by
`findCapsB`. -/
def lenPat : RE := .seq (litRE "LEN=".data) (.group 1 digPlus)

/-- Relational match semantics with captures: `AcceptsC re s caps` holds when
`re` matches exactly `s` producing the capture environment `caps`.  Every
result of `msplit` is sound with respect to this relation (proved below), so
structural facts about what a successful match must contain can be read off
the derivation. -/
inductive AcceptsC : RE → List Char → Caps → Prop where
  | eps : AcceptsC .eps [] emptyCaps
  | sym {p : Char → Bool} {c : Char} : p c = true → AcceptsC (.sym p) [c] emptyCaps
  | seq {r1 r2 : RE} {s1 s2 : List Char} {c1 c2 : Caps} :
      AcceptsC r1 s1 c1 → AcceptsC r2 s2 c2 →
      AcceptsC (.seq r1 r2) (s1 ++ s2) (mergeCaps c1 c2)
  | altL {r1 r2 : RE} {s : List Char} {c : Caps} :
      AcceptsC r1 s c → AcceptsC (.alt r1 r2) s c
  | altR {r1 r2 : RE} {s : List Char} {c : Caps} :
      AcceptsC r2 s c → AcceptsC (.alt r1 r2) s c
  | starNil {r : RE} {g : Bool} : AcceptsC (.star r g) [] emptyCaps
  | starCons {r : RE} {g : Bool} {s1 s2 : List Char} {c1 c2 : Caps} :
      AcceptsC r s1 c1 → AcceptsC (.star r g) s2 c2 →
      AcceptsC (.star r g) (s1 ++ s2) (mergeCaps c1 c2)
  | optSome {r : RE} {g : Bool} {s : List Char} {c : Caps} :
      AcceptsC r s c → AcceptsC (.opt r g) s c
  | optNone {r : RE} {g : Bool} : AcceptsC (.opt r g) [] emptyCaps
  | group {i : Nat} {r : RE} {s : List Char} {c : Caps} :
      AcceptsC r s c → AcceptsC (.group i r) s (setCap i s c)

/-- The capture-group indices occurring in a pattern. -/
def groupIdxs : RE → List Nat
  | .eps => []
  | .sym _ => []
  | .seq a b => groupIdxs a ++ groupIdxs b
  | .alt a b => groupIdxs a ++ groupIdxs b
  | .star r _ => groupIdxs r
  | .opt r _ => groupIdxs r
  | .group i r => i :: groupIdxs r

/-! ## Timestamp parsing (`parseTimestamp`, part_009 lines 284-301)

`time.Parse` with the layouts `time.RFC3339Nano` and `"Jan 2 15:04:05"` is
modelled with the validations Go performs: component ranges, month-specific
day counts, and the exact digit widths of each layout field. -/

def readNDigits : Nat → List Char → Nat → Option (Nat × List Char)
  | 0, s, acc => some (acc, s)
  | _ + 1, [], _ => none
  | n + 1, c :: r, acc =>
    if isDigitCh c then readNDigits n r (acc * 10 + (c.toNat - 48)) else none

def expectCh (c : Char) : List Char → Option (List Char)
  | [] => none
  | x :: r => if x = c then some r else none

def isLeap (y : Nat) : Bool :=
  y % 4 == 0 && (y % 100 != 0 || y % 400 == 0)

def daysInMonth (y m : Nat) : Nat :=
  if m == 2 then (if isLeap y then 29 else 28)
  else if m == 4 || m == 6 || m == 9 || m == 11 then 30
  else 31

/-- Optional fractional seconds of `RFC3339Nano` (`.999999999`): a dot and
one to nine digits, scaled to nanoseconds. -/
def readFrac (s : List Char) : Option (Nat × List Char) :=
  match s with
  | '.' :: r =>
    let ds := r.takeWhile isDigitCh
    if ds.isEmpty || 9 < ds.length then none
    else some (digitsVal ds * 10 ^ (9 - ds.length), r.drop ds.length)
  | _ => some (0, s)

/-- The `Z07:00` zone of RFC 3339: `Z`, or a sign and `hh:mm`; must consume
the rest of the input. -/
def readZone (s : List Char) : Option Int :=
  match s with
  | ['Z'] => some 0
  | c :: r =>
    if c = '+' || c = '-' then
      match readNDigits 2 r 0 with
      | some (hh, r1) =>
        match expectCh ':' r1 with
        | some r2 =>
          match readNDigits 2 r2 0 with
          | some (mm, []) =>
            if mm ≤ 59 then
              some (if c = '+' then (hh * 60 + mm : Int) else -(hh * 60 + mm : Int))
            else none
          | _ => none
        | none => none
      | none => none
    else none
  | [] => none

/-- `time.Parse time.RFC3339Nano`. -/
def rfc3339M (s : List Char) : Option GoTime :=
  match readNDigits 4 s 0 with
  | none => none
  | some (y, s1) =>
    match expectCh '-' s1 with
    | none => none
    | some s2 =>
      match readNDigits 2 s2 0 with
      | none => none
      | some (mo, s3) =>
        match expectCh '-' s3 with
        | none => none
        | some s4 =>
          match readNDigits 2 s4 0 with
          | none => none
          | some (d, s5) =>
            match expectCh 'T' s5 with
            | none => none
            | some s6 =>
              match readNDigits 2 s6 0 with
              | none => none
              | some (hh, s7) =>
                match expectCh ':' s7 with
                | none => none
                | some s8 =>
                  match readNDigits 2 s8 0 with
                  | none => none
                  | some (mi, s9) =>
                    match expectCh ':' s9 with
                    | none => none
                    | some s10 =>
                      match readNDigits 2 s10 0 with
                      | none => none
                      | some (ss, s11) =>
                        match readFrac s11 with
                        | none => none
                        | some (ns, s12) =>
                          match readZone s12 with
                          | none => none
                          | some z =>
                            if 1 ≤ mo && mo ≤ 12 && 1 ≤ d && d ≤ daysInMonth y mo
                                && hh ≤ 23 && mi ≤ 59 && ss ≤ 59 then
                              some ⟨y, mo, d, hh, mi, ss, ns, z, false⟩
                            else none

/-- `unicode.IsSpace` restricted to ASCII (what `strings.Fields` splits on). -/
def isSpaceGo (c : Char) : Bool :=
  c == ' ' || c == '\t' || c == '\n' || c == '\x0b' || c == '\x0c' || c == '\r'

def goFieldsAux : List Char → List Char → List (List Char)
  | [], acc => if acc.isEmpty then [] else [acc.reverse]
  | c :: r, acc =>
    if isSpaceGo c then
      if acc.isEmpty then goFieldsAux r [] else acc.reverse :: goFieldsAux r []
    else goFieldsAux r (c :: acc)

/-- `strings.Fields`. -/
def goFields (l : List Char) : List (List Char) := goFieldsAux l []

/-- `strings.Join fields " "`. -/
def joinSpace (ws : List (List Char)) : List Char :=
  (ws.intersperse [' ']).flatten

def monthNames : List (List Char) :=
  ["Jan".data, "Feb".data, "Mar".data, "Apr".data, "May".data, "Jun".data,
   "Jul".data, "Aug".data, "Sep".data, "Oct".data, "Nov".data, "Dec".data]

/-- Three-letter month lookup, ASCII case-insensitive (as Go `time`'s layout
matching is). -/
def monthFromName (l : List Char) : Option Nat :=
  (monthNames.findIdx? fun m => (m.map Char.toLower) == (l.map Char.toLower)).map (· + 1)

/-- Day-of-month field of layout `"2"`: one or two digits. -/
def readDay (s : List Char) : Option (Nat × List Char) :=
  match s with
  | c :: r =>
    if isDigitCh c then
      match r with
      | d :: r2 =>
        if isDigitCh d then some ((c.toNat - 48) * 10 + (d.toNat - 48), r2)
        else some (c.toNat - 48, r)
      | [] => some (c.toNat - 48, [])
    else none
  | [] => none

/-- `time.Parse "Jan 2 15:04:05"` on the space-normalised text, followed by
`parseTimestamp`'s substitution of the current year (`syslogYear` marks it;
the zero year is what `time.Parse` itself produced, and year 0 is treated as
a leap year by Go's calendar, so Feb 29 is accepted). -/
def syslogM (s : List Char) : Option GoTime :=
  let norm := joinSpace (goFields s)
  match monthFromName (norm.take 3) with
  | none => none
  | some mo =>
    match expectCh ' ' (norm.drop 3) with
    | none => none
    | some s1 =>
      match readDay s1 with
      | none => none
      | some (d, s2) =>
        match expectCh ' ' s2 with
        | none => none
        | some s3 =>
          match readNDigits 2 s3 0 with
          | none => none
          | some (hh, s4) =>
            match expectCh ':' s4 with
            | none => none
            | some s5 =>
              match readNDigits 2 s5 0 with
              | none => none
              | some (mi, s6) =>
                match expectCh ':' s6 with
                | none => none
                | some s7 =>
                  match readNDigits 2 s7 0 with
                  | some (ss, []) =>
                    if 1 ≤ d && d ≤ daysInMonth 0 mo && hh ≤ 23 && mi ≤ 59 && ss ≤ 59 then
                      some ⟨0, mo, d, hh, mi, ss, 0, 0, true⟩
                    else none
                  | _ => none

/-- `parseTimestamp` (part_009 lines 284-301): a leading digit selects the
RFC 3339 path, anything else the syslog path. -/
def parseTimestampM (s : List Char) : Option GoTime :=
  match s with
  | c :: _ => if isDigitCh c then rfc3339M s else syslogM s
  | [] => syslogM []

/-! ## ParseLine (part_009 lines 92-129) -/

/-- Capture group text as Go reports it: `""` for a non-participating group. -/
def capL (c : Caps) (i : Nat) : List Char :=
  (c i).getD []

/-- `math.MaxInt64`: `strconv.Atoi` on a too-large digit string returns this
value together with a range error, which `ParseLine` discards. -/
def maxGoInt : Nat := 9223372036854775807

/-- `strconv.Atoi` on an all-digit string, as used by `ParseLine`. -/
def atoiDigits (l : List Char) : Nat :=
  min (digitsVal l) maxGoInt

/-- `strings.Trim m3 "[ "`: drop leading and trailing `[` and space. -/
def trimCut (l : List Char) : List Char :=
  let cut := fun c => c == '[' || c == ' '
  ((l.dropWhile cut).reverse.dropWhile cut).reverse

/-- `parser.ParseLine`: match `logLineRe` from the start of the line, parse
the timestamp, build the entry; `SPT`/`DPT` only when their groups matched,
`TTL`/`LEN` by independent unanchored scans.  Total by construction — the Go
function likewise never panics on any input. -/
def parseLineM (line : String) : Except String LogEntry :=
  match findSubmatch logRe line.data with
  | none => .error "line does not match iptables log format"
  | some (_, caps) =>
    match parseTimestampM (capL caps 1) with
    | none => .error "parse timestamp"
    | some ts =>
      let sp := capL caps 9
      let dp := capL caps 10
      .ok
        { timestamp := ts
          hostname := String.mk (capL caps 2)
          pfx := String.mk (trimCut (capL caps 3))
          inIf := String.mk (capL caps 4)
          outIf := String.mk (capL caps 5)
          src := String.mk (capL caps 6)
          dst := String.mk (capL caps 7)
          proto := normalizeProto (String.mk (capL caps 8))
          srcPort := if sp.isEmpty then 0 else atoiDigits sp
          dstPort := if dp.isEmpty then 0 else atoiDigits dp
          ttl :=
            match findCaps ttlPat line.data with
            | some c => atoiDigits (capL c 1)
            | none => 0
          lenB :=
            match findCapsB lenPat none line.data with
            | some c => atoiDigits (capL c 1)
            | none => 0
          raw := line }

/-- `Except.isOk` as a Bool. -/
def isOkE {ε α : Type} : Except ε α → Bool
  | .ok _ => true
  | .error _ => false

/-! ## Update (model.go lines 107-147) -/

/-- `Model.Update`: the message switch.  `NewLineMsg` parses and, on success,
calls `addEntry`; `WhoisMsg` merges a lookup result into the cache and clears
the pending flag; key messages go to `handleKey`; any other message type is
propagated to the search input when it is open (which re-applies filters). -/
def update (m : Model) (msg : Msg) : Model × Option Cmd :=
  match msg with
  | .winSize w h => ({ m with width := w, height := h }, none)
  | .tailerErr e => ({ m with err := some e }, none)
  | .newLine s =>
    match parseLineM s with
    | .error _ => (m, none)
    | .ok entry => (addEntry m entry, none)
  | .whoisResult ip info =>
    ({ m with whoisCache := cacheInsert m.whoisCache ip info,
              whoisPending := pendingDel m.whoisPending ip }, none)
  | .key k => handleKey m k
  | .other =>
    if m.searching then
      (applyFilters { m with filters := { m.filters with ipSubstr := m.searchInput } }, none)
    else (m, none)

/-- Fold a message sequence through `update`, discarding commands: the
reachable states of the event loop from a starting model. -/
def runMsgs (m : Model) (msgs : List Msg) : Model :=
  msgs.foldl (fun acc msg => (update acc msg).1) m

/-- An entry differing from the zero entry only in its prefix; used to
evaluate `Action` on concrete prefixes. -/
def entryP (p : String) : LogEntry :=
  { zeroEntry with pfx := p }

/-- A five-entry model with the cursor on the last filtered row (the
spec's auto-follow example). -/
def exModelA : Model :=
  { newModel (fun _ => "External") with
      all := List.replicate 5 zeroEntry
      filtered := List.replicate 5 zeroEntry
      cursor := 4 }

/-- Like `exModelA` but scrolled away to row 2. -/
def exModelB : Model :=
  { exModelA with cursor := 2 }

/-- An entry from an external source address. -/
def exEntryW : LogEntry :=
  { zeroEntry with src := "9.9.9.9" }

/-- A one-row model over `exEntryW` with nothing cached or pending. -/
def exModelW : Model :=
  { newModel (fun _ => "External") with
      all := [exEntryW]
      filtered := [exEntryW] }

/-- Like `exModelW` but with a whois lookup already pending for the row's
source address. -/
def exModelW2 : Model :=
  { exModelW with whoisPending := ["9.9.9.9"] }

/-- A line containing none of the mandatory tokens (and no timestamp). -/
def lineNoSrc : String := "!! nothing here"

/-- A line with the mandatory tokens but no recognisable leading timestamp
(its first character is neither a digit nor a word character, so neither
timestamp alternative can match a prefix). -/
def lineTsBad : String := "!ts h kernel: P IN= OUT= SRC=1 DST=2 PROTO=1"

/-- A well-formed syslog-style line carrying none of SPT/DPT/TTL/LEN. -/
def lineEx : String := "Feb 3 10:02:11 h kernel: P IN= OUT= SRC=1 DST=2 PROTO=1"

/-- The entry `ParseLine` produces for `lineEx`. -/
def eEx : LogEntry :=
  { timestamp := ⟨0, 2, 3, 10, 2, 11, 0, 0, true⟩
    hostname := "h", pfx := "P", inIf := "", outIf := "", src := "1", dst := "2"
    proto := "ICMP", srcPort := 0, dstPort := 0, ttl := 0, lenB := 0
    raw := lineEx }

/-! ## Theorems

First the helper lemmas, then one theorem per claim (with its witness or
counterexample where required). -/

/-! ### Tailer lemmas -/

theorem dropWhile_eq_self_of_all (p : Char → Bool) (l : List Char)
    (h : ∀ c ∈ l, p c = false) : l.dropWhile p = l := by
  cases l with
  | nil => rfl
  | cons c t =>
    rw [List.dropWhile_cons, if_neg]
    simp [h c (by simp)]

theorem splitChunks_no_newline (l : List Char) (hne : l ≠ []) (h : '\n' ∉ l) :
    splitChunks l = [l] := by
  induction l with
  | nil => cases hne rfl
  | cons c rest ih =>
    simp only [List.mem_cons, not_or] at h
    unfold splitChunks
    rw [if_neg (by exact fun hc => h.1 hc.symm)]
    cases hr : rest with
    | nil => simp [splitChunks]
    | cons d tl =>
      rw [← hr, ih (by simp [hr]) h.2]

theorem stripNl_no_crlf (l : List Char) (hn : '\n' ∉ l) (hr : '\r' ∉ l) :
    stripNl l = l := by
  unfold stripNl
  rw [dropWhile_eq_self_of_all, List.reverse_reverse]
  intro c hc
  have hmem : c ∈ l := List.mem_reverse.mp hc
  simp only [Bool.or_eq_false_iff, beq_eq_false_iff_ne, ne_eq]
  constructor
  · intro h; exact hn (h ▸ hmem)
  · intro h; exact hr (h ▸ hmem)

theorem drainFrom_fragment (frag : List Char) (hne : frag ≠ [])
    (hn : '\n' ∉ frag) (hr : '\r' ∉ frag) :
    drainFrom frag 0 = [frag] := by
  unfold drainFrom
  rw [List.drop_zero, splitChunks_no_newline frag hne hn,
    List.filterMap_cons, List.filterMap_nil]
  simp [stripNl_no_crlf frag hn hr, List.isEmpty_iff, hne]

/-! ### C1 — partial lines at read time -/

/-- C1, counterexample.  The claim says a line whose trailing newline has not
yet been written is not emitted on `Lines`.  In fact the drain loop sends a
chunk before testing for `io.EOF`: with the file containing only `abc` (no
terminator) the cycle emits `abc`; after `def` and the terminator arrive, the
next cycle emits only `def` — the complete line `abcdef` is never emitted. -/
theorem tailer_partial_line_cex :
    (pollCycle 0 "abc".data false).emitted = ["abc".data] ∧
    (pollCycle 3 ("abc".data ++ "def\n".data) false).emitted = ["def".data] := by
  decide

/-- C1, amended: a line whose trailing newline terminator has not yet been
written *is* emitted immediately when the drain reaches end-of-file; the
tailer remembers the offset after those consumed bytes, so once the remainder
of the line (with its terminator) is appended, only that remainder is emitted
as a separate line — the eventual complete line is never re-read and never
emitted intact. -/
theorem tailer_partial_line_amended (frag rest : List Char)
    (h1 : frag ≠ []) (h2 : '\n' ∉ frag) (h3 : '\r' ∉ frag) :
    (pollCycle 0 frag false).emitted = [frag] ∧
    (pollCycle 0 frag false).newOffset = frag.length ∧
    (pollCycle frag.length (frag ++ rest) false).emitted = drainFrom rest 0 := by
  have hlt : ¬ frag.length < 0 := Nat.not_lt_zero _
  refine ⟨?_, ?_, ?_⟩
  · unfold pollCycle
    rw [if_neg hlt]
    exact drainFrom_fragment frag h1 h2 h3
  · unfold pollCycle
    rw [if_neg hlt]
  · unfold pollCycle
    rw [if_neg (by simp)]
    unfold drainFrom
    rw [List.drop_left, List.drop_zero]

/-- Witness for `tailer_partial_line_amended` at `frag = "abc"`,
`rest = "def\n"`. -/
theorem tailer_partial_line_amended_witness :
    (pollCycle 0 "abc".data false).emitted = ["abc".data] ∧
    (pollCycle 0 "abc".data false).newOffset = "abc".data.length ∧
    (pollCycle "abc".data.length ("abc".data ++ "def\n".data) false).emitted =
      drainFrom "def\n".data 0 :=
  tailer_partial_line_amended "abc".data "def\n".data (by decide) (by decide) (by decide)

/-! ### C6 — rotation handling -/

/-- C6: in a poll cycle where the file's current size is below the remembered
read offset (and the file can be reopened), the tailer reopens from offset 0,
emits the lines read from the beginning of the file, and emits nothing on
`Errors`. -/
theorem tailer_rotation_reopen (off : Nat) (content : List Char)
    (h : content.length < off) :
    (pollCycle off content false).emitted = drainFrom content 0 ∧
    (pollCycle off content false).errorEmitted = false ∧
    (pollCycle off content false).newOffset = content.length := by
  unfold pollCycle
  rw [if_pos h]
  exact ⟨rfl, rfl, rfl⟩

/-- Witness for `tailer_rotation_reopen`: a 5-byte replacement file polled
while the remembered offset is 9. -/
theorem tailer_rotation_reopen_witness :
    "a\nbc\n".data.length < 9 ∧
    (pollCycle 9 "a\nbc\n".data false).emitted = drainFrom "a\nbc\n".data 0 ∧
    (pollCycle 9 "a\nbc\n".data false).errorEmitted = false :=
  ⟨by decide, (tailer_rotation_reopen 9 "a\nbc\n".data (by decide)).1,
    (tailer_rotation_reopen 9 "a\nbc\n".data (by decide)).2.1⟩

/-! ### C4 — Action derivation -/

/-- C4: `Action` is derived from the prefix by case-insensitive substring
matching (the code uppercases the prefix and tests uppercase literals), with
DROP/BLOCK tested before ACCEPT before REJECT; a non-empty prefix matching
none of them is returned verbatim, and an empty prefix yields UNKNOWN. -/
theorem action_precedence (e : LogEntry) :
    ((containsStr (toUpperStr e.pfx) "DROP" = true ∨ containsStr (toUpperStr e.pfx) "BLOCK" = true) →
      e.action = "DROP") ∧
    (containsStr (toUpperStr e.pfx) "DROP" = false → containsStr (toUpperStr e.pfx) "BLOCK" = false →
      containsStr (toUpperStr e.pfx) "ACCEPT" = true → e.action = "ACCEPT") ∧
    (containsStr (toUpperStr e.pfx) "DROP" = false → containsStr (toUpperStr e.pfx) "BLOCK" = false →
      containsStr (toUpperStr e.pfx) "ACCEPT" = false → containsStr (toUpperStr e.pfx) "REJECT" = true →
      e.action = "REJECT") ∧
    (containsStr (toUpperStr e.pfx) "DROP" = false → containsStr (toUpperStr e.pfx) "BLOCK" = false →
      containsStr (toUpperStr e.pfx) "ACCEPT" = false → containsStr (toUpperStr e.pfx) "REJECT" = false →
      e.pfx ≠ "" → e.action = e.pfx) ∧
    (e.pfx = "" → e.action = "UNKNOWN") := by
  refine ⟨?_, ?_, ?_, ?_, ?_⟩
  · rintro (h | h) <;> simp [LogEntry.action, h]
  · intro h1 h2 h3
    simp [LogEntry.action, h1, h2, h3]
  · intro h1 h2 h3 h4
    simp [LogEntry.action, h1, h2, h3, h4]
  · intro h1 h2 h3 h4 h5
    simp [LogEntry.action, h1, h2, h3, h4, h5]
  · intro h
    have hd : containsStr (toUpperStr "") "DROP" = false := by decide
    have hb : containsStr (toUpperStr "") "BLOCK" = false := by decide
    have ha : containsStr (toUpperStr "") "ACCEPT" = false := by decide
    have hr : containsStr (toUpperStr "") "REJECT" = false := by decide
    simp [LogEntry.action, h, hd, hb, ha, hr]

/-- Witness for `action_precedence` at concrete prefixes, including a prefix
containing both BLOCK and ACCEPT (DROP wins) and one containing both ACCEPT
and REJECT (ACCEPT wins). -/
theorem action_precedence_witness :
    (entryP "ufw Block Accept").action = "DROP" ∧
    (entryP "x accept reject").action = "ACCEPT" ∧
    (entryP "so Rejected").action = "REJECT" ∧
    (entryP "mychain").action = "mychain" ∧
    (entryP "").action = "UNKNOWN" :=
  ⟨(action_precedence _).1 (Or.inr (by decide)),
    (action_precedence _).2.1 (by decide) (by decide) (by decide),
    (action_precedence _).2.2.1 (by decide) (by decide) (by decide) (by decide),
    (action_precedence _).2.2.2.1 (by decide) (by decide) (by decide) (by decide) (by decide),
    (action_precedence _).2.2.2.2 rfl⟩

/-! ### C7 — IP categorisation -/

/-- C7: `Categorize` always returns one of Internal, Multicast, External; an
unparseable string is External; and an address inside a multicast range is
Multicast no matter what the captured local subnets contain (Multicast takes
precedence over Internal). -/
theorem categorize_spec (subnets : List IPNet) (s : String) :
    (categorizeIP subnets s = "Internal" ∨ categorizeIP subnets s = "Multicast" ∨
      categorizeIP subnets s = "External") ∧
    (parseIPG s = none → categorizeIP subnets s = "External") ∧
    (∀ ip, parseIPG s = some ip →
      (multicastRanges.any fun r => ipnetContains r ip) = true →
      categorizeIP subnets s = "Multicast") := by
  refine ⟨?_, ?_, ?_⟩
  · unfold categorizeIP
    cases hp : parseIPG s with
    | none => simp
    | some ip =>
      by_cases hm : (multicastRanges.any fun r => ipnetContains r ip) = true
      · simp [hm]
      · by_cases hi : (subnets.any fun r => ipnetContains r ip) = true
        · simp [hm, hi]
        · simp [hm, hi]
  · intro hp
    unfold categorizeIP
    rw [hp]
  · intro ip hp hm
    unfold categorizeIP
    rw [hp]
    simp [hm]

/-- Witness for `categorize_spec`: `224.0.0.1` lies in the multicast range
*and* in the (artificial) captured subnet `224.0.0.0/4`, yet is categorised
Multicast; `notanip` does not parse and is External. -/
theorem categorize_spec_witness :
    ipnetContains ⟨[224, 0, 0, 0], [240, 0, 0, 0]⟩ [224, 0, 0, 1] = true ∧
    categorizeIP [⟨[224, 0, 0, 0], [240, 0, 0, 0]⟩] "224.0.0.1" = "Multicast" ∧
    categorizeIP [] "notanip" = "External" :=
  ⟨by decide,
    (categorize_spec [⟨[224, 0, 0, 0], [240, 0, 0, 0]⟩] "224.0.0.1").2.2
      [224, 0, 0, 1] (by decide) (by decide),
    (categorize_spec [] "notanip").2.1 (by decide)⟩

/-! ### Model helper lemmas -/

theorem applyFilters_all (m : Model) : (applyFilters m).all = m.all := rfl

theorem applyFilters_stats (m : Model) : (applyFilters m).stats = m.stats := rfl

theorem applyFilters_filtered (m : Model) :
    (applyFilters m).filtered = m.all.filter fun e => matchesFilter m.filters e := rfl

theorem applyFilters_filters (m : Model) : (applyFilters m).filters = m.filters := rfl

theorem addEntry_parts (m : Model) (e : LogEntry) :
    (addEntry m e).all = m.all ++ [e] ∧
    (addEntry m e).stats.total = m.stats.total + 1 ∧
    (addEntry m e).filters = m.filters ∧
    (addEntry m e).filtered =
      (if matchesFilter m.filters e then m.filtered ++ [e] else m.filtered) ∧
    (addEntry m e).cursor =
      (if matchesFilter m.filters e then
        (if !m.detailOpen && (m.cursor == ((m.filtered ++ [e]).length : Int) - 2)
         then ((m.filtered ++ [e]).length : Int) - 1
         else m.cursor)
       else m.cursor) := by
  by_cases hme : matchesFilter m.filters e = true
  · refine ⟨?_, ?_, ?_, ?_, ?_⟩ <;> simp [addEntry, hme]
  · refine ⟨?_, ?_, ?_, ?_, ?_⟩ <;> simp [addEntry, hme]

theorem addEntry_all (m : Model) (e : LogEntry) :
    (addEntry m e).all = m.all ++ [e] :=
  (addEntry_parts m e).1

theorem addEntry_stats_total (m : Model) (e : LogEntry) :
    (addEntry m e).stats.total = m.stats.total + 1 :=
  (addEntry_parts m e).2.1

theorem addEntry_filters (m : Model) (e : LogEntry) :
    (addEntry m e).filters = m.filters :=
  (addEntry_parts m e).2.2.1

theorem addEntry_filtered (m : Model) (e : LogEntry) :
    (addEntry m e).filtered =
      if matchesFilter m.filters e then m.filtered ++ [e] else m.filtered :=
  (addEntry_parts m e).2.2.2.1

theorem logsKey_preserves (m : Model) (k : String) :
    (logsKey m k).1.all = m.all ∧ (logsKey m k).1.stats = m.stats := by
  unfold logsKey
  by_cases h1 : (k == "up" || k == "k") = true
  · rw [if_pos h1]
    split <;> exact ⟨rfl, rfl⟩
  rw [if_neg h1]
  by_cases h2 : (k == "down" || k == "j") = true
  · rw [if_pos h2]
    split <;> exact ⟨rfl, rfl⟩
  rw [if_neg h2]
  by_cases h3 : (k == "pgup") = true
  · rw [if_pos h3]
    exact ⟨rfl, rfl⟩
  rw [if_neg h3]
  by_cases h4 : (k == "pgdown") = true
  · rw [if_pos h4]
    exact ⟨rfl, rfl⟩
  rw [if_neg h4]
  by_cases h5 : (k == "enter") = true
  · rw [if_pos h5]
    split
    · dsimp only
      split
      · split <;> exact ⟨rfl, rfl⟩
      · exact ⟨rfl, rfl⟩
    · exact ⟨rfl, rfl⟩
  rw [if_neg h5]
  by_cases h6 : (k == "d") = true
  · rw [if_pos h6]
    exact ⟨rfl, rfl⟩
  rw [if_neg h6]
  by_cases h7 : (k == "a") = true
  · rw [if_pos h7]
    exact ⟨rfl, rfl⟩
  rw [if_neg h7]
  by_cases h8 : (k == "t") = true
  · rw [if_pos h8]
    exact ⟨rfl, rfl⟩
  rw [if_neg h8]
  by_cases h9 : (k == "u") = true
  · rw [if_pos h9]
    exact ⟨rfl, rfl⟩
  rw [if_neg h9]
  by_cases h10 : (k == "/") = true
  · rw [if_pos h10]
    exact ⟨rfl, rfl⟩
  rw [if_neg h10]
  by_cases h11 : (k == "esc") = true
  · rw [if_pos h11]
    exact ⟨rfl, rfl⟩
  rw [if_neg h11]
  exact ⟨rfl, rfl⟩

theorem handleKey_preserves (m : Model) (k : String) :
    (handleKey m k).1.all = m.all ∧ (handleKey m k).1.stats = m.stats := by
  unfold handleKey
  by_cases h1 : (k == "q" || k == "ctrl+c") = true
  · rw [if_pos h1]
    exact ⟨rfl, rfl⟩
  rw [if_neg h1]
  by_cases h2 : m.detailOpen = true
  · rw [if_pos h2]
    split <;> exact ⟨rfl, rfl⟩
  rw [if_neg h2]
  by_cases h3 : m.searching = true
  · rw [if_pos h3]
    split <;> exact ⟨rfl, rfl⟩
  rw [if_neg h3]
  by_cases h4 : (k == "1") = true
  · rw [if_pos h4]
    exact ⟨rfl, rfl⟩
  rw [if_neg h4]
  by_cases h5 : (k == "2") = true
  · rw [if_pos h5]
    exact ⟨rfl, rfl⟩
  rw [if_neg h5]
  by_cases h6 : (k == "3") = true
  · rw [if_pos h6]
    exact ⟨rfl, rfl⟩
  rw [if_neg h6]
  by_cases h7 : (k == "tab") = true
  · rw [if_pos h7]
    exact ⟨rfl, rfl⟩
  rw [if_neg h7]
  dsimp only
  by_cases h8 : (m.tab == 0) = true
  · rw [if_pos h8]
    by_cases h9 : ((logsKey m k).1.tab == 2 && k == "c") = true
    · rw [if_pos h9]
      exact ⟨(logsKey_preserves m k).1, (logsKey_preserves m k).2⟩
    · rw [if_neg h9]
      exact ⟨(logsKey_preserves m k).1, (logsKey_preserves m k).2⟩
  · rw [if_neg h8]
    by_cases h9 : ((m, (none : Option Cmd)).1.tab == 2 && k == "c") = true
    · rw [if_pos h9]
      exact ⟨rfl, rfl⟩
    · rw [if_neg h9]
      exact ⟨rfl, rfl⟩

theorem handleKey_all (m : Model) (k : String) : (handleKey m k).1.all = m.all :=
  (handleKey_preserves m k).1

theorem handleKey_stats (m : Model) (k : String) : (handleKey m k).1.stats = m.stats :=
  (handleKey_preserves m k).2

/-! ### C2 — auto-follow -/

/-- C2: with the detail overlay closed, appending an event that passes the
current filters advances the cursor to the new last index exactly when it sat
on the previous last index, and leaves it untouched otherwise. -/
theorem addEntry_autofollow (m : Model) (e : LogEntry)
    (hd : m.detailOpen = false) (hm : matchesFilter m.filters e = true) :
    ((addEntry m e).filtered.length = m.filtered.length + 1) ∧
    (m.cursor = (m.filtered.length : Int) - 1 →
      (addEntry m e).cursor = (m.filtered.length : Int)) ∧
    (m.cursor ≠ (m.filtered.length : Int) - 1 →
      (addEntry m e).cursor = m.cursor) := by
  have hpair :
      (addEntry m e).filtered = m.filtered ++ [e] ∧
      (addEntry m e).cursor =
        (if !m.detailOpen && (m.cursor == ((m.filtered ++ [e]).length : Int) - 2)
         then ((m.filtered ++ [e]).length : Int) - 1
         else m.cursor) := by
    have h1 := (addEntry_parts m e).2.2.2.1
    have h2 := (addEntry_parts m e).2.2.2.2
    rw [if_pos hm] at h1 h2
    exact ⟨h1, h2⟩
  refine ⟨by rw [hpair.1, List.length_append]; rfl, ?_, ?_⟩
  · intro hc
    rw [hpair.2, hd]
    have hbeq : (m.cursor == ((m.filtered ++ [e]).length : Int) - 2) = true := by
      rw [beq_iff_eq]
      simp only [List.length_append, List.length_singleton]
      push_cast
      omega
    rw [hbeq]
    simp only [Bool.not_false, Bool.true_and, if_true, List.length_append,
      List.length_singleton]
    push_cast
    omega
  · intro hc
    rw [hpair.2, hd]
    have hbeq : (m.cursor == ((m.filtered ++ [e]).length : Int) - 2) = false := by
      rw [beq_eq_false_iff_ne, ne_eq]
      simp only [List.length_append, List.length_singleton]
      push_cast
      omega
    rw [hbeq]
    simp

/-- Witness for `addEntry_autofollow`: the spec's example — cursor at index 4
of a 5-row filtered view advances to 5; a cursor scrolled away to 2 stays. -/
theorem addEntry_autofollow_witness :
    ((addEntry exModelA zeroEntry).filtered.length = exModelA.filtered.length + 1) ∧
    ((addEntry exModelA zeroEntry).cursor = (exModelA.filtered.length : Int)) ∧
    ((addEntry exModelB zeroEntry).cursor = exModelB.cursor) :=
  ⟨(addEntry_autofollow exModelA zeroEntry rfl (by decide)).1,
    (addEntry_autofollow exModelA zeroEntry rfl (by decide)).2.1 (by decide),
    (addEntry_autofollow exModelB zeroEntry rfl (by decide)).2.2 (by decide)⟩

/-! ### C3 — the filtered view is re-derivable -/

/-- C3: after `applyFilters` the filtered view is exactly the filter of the
authoritative collection in arrival order, and `addEntry`'s incremental
append preserves that invariant — hence it coincides with what a full
re-scan (`applyFilters`) would produce. -/
theorem filtered_view_rederivable (m : Model) (e : LogEntry) :
    ((applyFilters m).filtered =
      (applyFilters m).all.filter fun x => matchesFilter (applyFilters m).filters x) ∧
    (m.filtered = (m.all.filter fun x => matchesFilter m.filters x) →
      (addEntry m e).filtered =
        (addEntry m e).all.filter fun x => matchesFilter (addEntry m e).filters x) ∧
    (m.filtered = (m.all.filter fun x => matchesFilter m.filters x) →
      (addEntry m e).filtered = (applyFilters (addEntry m e)).filtered) := by
  have hstep : ∀ hinv : m.filtered = m.all.filter fun x => matchesFilter m.filters x,
      (addEntry m e).filtered =
        (addEntry m e).all.filter fun x => matchesFilter (addEntry m e).filters x := by
    intro hinv
    rw [addEntry_filtered, addEntry_all, addEntry_filters, List.filter_append, ← hinv]
    cases hme : matchesFilter m.filters e with
    | true => simp [hme]
    | false => simp [hme]
  refine ⟨rfl, hstep, ?_⟩
  intro hinv
  rw [applyFilters_filtered]
  exact hstep hinv

/-- Witness for `filtered_view_rederivable` at a concrete five-row model. -/
theorem filtered_view_rederivable_witness :
    ((applyFilters exModelA).filtered =
      (applyFilters exModelA).all.filter fun x =>
        matchesFilter (applyFilters exModelA).filters x) ∧
    ((addEntry exModelA zeroEntry).filtered =
      (addEntry exModelA zeroEntry).all.filter fun x =>
        matchesFilter (addEntry exModelA zeroEntry).filters x) ∧
    ((addEntry exModelA zeroEntry).filtered =
      (applyFilters (addEntry exModelA zeroEntry)).filtered) :=
  ⟨(filtered_view_rederivable exModelA zeroEntry).1,
    (filtered_view_rederivable exModelA zeroEntry).2.1 (by decide),
    (filtered_view_rederivable exModelA zeroEntry).2.2 (by decide)⟩

/-! ### C10 — cursor clamping in applyFilters -/

/-- C10: after `applyFilters` the cursor is 0 whenever the filtered view is
empty (the empty-state sentinel is index 0, not -1), and otherwise lies
within `[0, len-1]`, so indexing the view at the cursor is in bounds. -/
theorem applyFilters_cursor_clamp (m : Model) :
    ((applyFilters m).filtered = [] → (applyFilters m).cursor = 0) ∧
    ((applyFilters m).filtered ≠ [] →
      0 ≤ (applyFilters m).cursor ∧
      (applyFilters m).cursor ≤ ((applyFilters m).filtered.length : Int) - 1) := by
  have hcur : (applyFilters m).cursor =
      (if (if m.cursor ≥ (((m.all.filter fun e => matchesFilter m.filters e)).length : Int)
           then (((m.all.filter fun e => matchesFilter m.filters e)).length : Int) - 1
           else m.cursor) < 0
       then 0
       else (if m.cursor ≥ (((m.all.filter fun e => matchesFilter m.filters e)).length : Int)
             then (((m.all.filter fun e => matchesFilter m.filters e)).length : Int) - 1
             else m.cursor)) := rfl
  constructor
  · intro h
    rw [applyFilters_filtered] at h
    rw [hcur, h]
    simp only [List.length_nil, Nat.cast_zero]
    split_ifs <;> omega
  · intro h
    rw [applyFilters_filtered] at h
    have hpos : 0 < (m.all.filter fun e => matchesFilter m.filters e).length :=
      List.length_pos.mpr h
    rw [hcur, applyFilters_filtered]
    split_ifs <;> constructor <;> omega

/-- Witness for `applyFilters_cursor_clamp`: a non-empty filtered view gives
in-bounds cursor; an empty one gives the 0 sentinel. -/
theorem applyFilters_cursor_clamp_witness :
    (0 ≤ (applyFilters exModelA).cursor ∧
      (applyFilters exModelA).cursor ≤ ((applyFilters exModelA).filtered.length : Int) - 1) ∧
    (applyFilters (newModel fun _ => "External")).cursor = 0 :=
  ⟨(applyFilters_cursor_clamp exModelA).2 (by decide),
    (applyFilters_cursor_clamp (newModel fun _ => "External")).1 (by decide)⟩

/-! ### C9 — RunningStats.Total tracks the authoritative collection -/

/-- C9: `addEntry` increments `Total` by exactly one and appends exactly one
event; no other message changes either; therefore in every state reachable
from the initial model through any message sequence, `Total` equals the
length of the authoritative collection, whatever the active filters. -/
theorem stats_total_invariant :
    (∀ m e, (addEntry m e).stats.total = m.stats.total + 1 ∧
      (addEntry m e).all.length = m.all.length + 1) ∧
    (∀ m k, (update m (.key k)).1.all = m.all ∧
      (update m (.key k)).1.stats.total = m.stats.total) ∧
    (∀ m w h, (update m (.winSize w h)).1.all = m.all ∧
      (update m (.winSize w h)).1.stats.total = m.stats.total) ∧
    (∀ m e, (update m (.tailerErr e)).1.all = m.all ∧
      (update m (.tailerErr e)).1.stats.total = m.stats.total) ∧
    (∀ m ip info, (update m (.whoisResult ip info)).1.all = m.all ∧
      (update m (.whoisResult ip info)).1.stats.total = m.stats.total) ∧
    (∀ m, (update m .other).1.all = m.all ∧
      (update m .other).1.stats.total = m.stats.total) ∧
    (∀ cat msgs, (runMsgs (newModel cat) msgs).stats.total =
      (runMsgs (newModel cat) msgs).all.length) := by
  have hadd : ∀ (m : Model) e, (addEntry m e).stats.total = m.stats.total + 1 ∧
      (addEntry m e).all.length = m.all.length + 1 := by
    intro m e
    exact ⟨addEntry_stats_total m e, by rw [addEntry_all]; simp⟩
  have hkey : ∀ (m : Model) k, (update m (.key k)).1.all = m.all ∧
      (update m (.key k)).1.stats.total = m.stats.total := by
    intro m k
    exact ⟨handleKey_all m k, by rw [show (update m (.key k)).1 = (handleKey m k).1 from rfl,
      handleKey_stats]⟩
  have hother : ∀ (m : Model), (update m .other).1.all = m.all ∧
      (update m .other).1.stats.total = m.stats.total := by
    intro m
    by_cases hs : m.searching = true
    · have hred : update m .other =
          (applyFilters { m with filters := { m.filters with ipSubstr := m.searchInput } },
           none) := by
        unfold update
        dsimp only
        rw [if_pos hs]
      rw [hred]
      exact ⟨rfl, rfl⟩
    · have hred : update m .other = (m, none) := by
        unfold update
        dsimp only
        rw [if_neg hs]
      rw [hred]
      exact ⟨rfl, rfl⟩
  have hstep : ∀ (m : Model) msg, m.stats.total = m.all.length →
      (update m msg).1.stats.total = (update m msg).1.all.length := by
    intro m msg hm
    cases msg with
    | newLine s =>
      cases hp : parseLineM s with
      | error err =>
        have hred : update m (.newLine s) = (m, none) := by
          unfold update
          dsimp only
          rw [hp]
        rw [hred]
        exact hm
      | ok entry =>
        have hred : update m (.newLine s) = (addEntry m entry, none) := by
          unfold update
          dsimp only
          rw [hp]
        rw [hred]
        show (addEntry m entry).stats.total = (addEntry m entry).all.length
        rw [(hadd m entry).1, (hadd m entry).2, hm]
    | key k =>
      show (handleKey m k).1.stats.total = (handleKey m k).1.all.length
      rw [handleKey_all, handleKey_stats, hm]
    | winSize w h => exact hm
    | tailerErr e => exact hm
    | whoisResult ip info => exact hm
    | other =>
      rw [(hother m).1, (hother m).2, hm]
  refine ⟨hadd, hkey, fun m w h => ⟨rfl, rfl⟩, fun m e => ⟨rfl, rfl⟩,
    fun m ip info => ⟨rfl, rfl⟩, hother, ?_⟩
  intro cat msgs
  suffices hgen : ∀ msgs (m : Model), m.stats.total = m.all.length →
      (runMsgs m msgs).stats.total = (runMsgs m msgs).all.length from
    hgen msgs (newModel cat) rfl
  intro msgs
  induction msgs with
  | nil => intro m hm; exact hm
  | cons msg rest ih =>
    intro m hm
    exact ih (update m msg).1 (hstep m msg hm)

/-! ### C8 — whois query deduplication -/

/-- C8: opening the detail page on a row (Enter on the Logs tab with nothing
overlaying it) starts a whois query only when the source is External and
neither pending nor cached — and then marks it pending; when a lookup is
already pending or a result (even an all-empty one) is already cached, no
command is issued and the pending set and cache are left as they were (the
trigger observes the pending state or the cached result). -/
theorem whois_dedup (m : Model)
    (h0 : m.detailOpen = false) (h1 : m.searching = false) (h2 : m.tab = 0)
    (h3 : 0 < m.filtered.length) (h4 : m.cursor < (m.filtered.length : Int)) :
    ((m.categorize (m.filtered.getD m.cursor.toNat zeroEntry).src = "External" →
      pendingHas m.whoisPending (m.filtered.getD m.cursor.toNat zeroEntry).src = false →
      cacheLookup m.whoisCache (m.filtered.getD m.cursor.toNat zeroEntry).src = none →
      (update m (.key "enter")).2 =
        some (.whoisQuery (m.filtered.getD m.cursor.toNat zeroEntry).src) ∧
      pendingHas (update m (.key "enter")).1.whoisPending
        (m.filtered.getD m.cursor.toNat zeroEntry).src = true) ∧
    ((pendingHas m.whoisPending (m.filtered.getD m.cursor.toNat zeroEntry).src = true ∨
      (cacheLookup m.whoisCache (m.filtered.getD m.cursor.toNat zeroEntry).src).isSome = true) →
      (update m (.key "enter")).2 = none ∧
      (update m (.key "enter")).1.whoisPending = m.whoisPending ∧
      (update m (.key "enter")).1.whoisCache = m.whoisCache)) := by
  have hu : update m (.key "enter") = logsKey m "enter" := by
    show handleKey m "enter" = _
    unfold handleKey
    rw [if_neg (by decide)]
    rw [if_neg (by simp [h0])]
    rw [if_neg (by simp [h1])]
    rw [if_neg (by decide), if_neg (by decide), if_neg (by decide), if_neg (by decide)]
    dsimp only
    rw [if_pos (show (m.tab == 0) = true from by rw [h2]; decide)]
    have hcf : ((logsKey m "enter").1.tab == 2 && ("enter" == "c")) = false := by
      rw [show (("enter" : String) == "c") = false from by decide, Bool.and_false]
    rw [if_neg (show ¬(((logsKey m "enter").1.tab == 2 && ("enter" == "c")) = true) from by
      rw [hcf]; exact Bool.false_ne_true)]
  have hlk : logsKey m "enter" =
      (let e := m.filtered.getD m.cursor.toNat zeroEntry
       let m1 := { m with detailEntry := e, detailOpen := true }
       if m1.categorize e.src == "External" && !(pendingHas m1.whoisPending e.src) then
         if (cacheLookup m1.whoisCache e.src).isSome then (m1, none)
         else ({ m1 with whoisPending := pendingAdd m1.whoisPending e.src },
               some (.whoisQuery e.src))
       else (m1, none)) := by
    unfold logsKey
    rw [if_neg (by decide), if_neg (by decide), if_neg (by decide), if_neg (by decide),
      if_pos (by decide)]
    rw [if_pos]
    simp only [Bool.and_eq_true, decide_eq_true_eq]
    exact ⟨h3, h4⟩
  rw [hu, hlk]
  dsimp only
  set e := m.filtered.getD m.cursor.toNat zeroEntry with he
  constructor
  · intro hext hpend hcache
    have hbeq : (m.categorize e.src == "External") = true := beq_iff_eq.mpr hext
    rw [if_pos (show (m.categorize e.src == "External" &&
        !(pendingHas m.whoisPending e.src)) = true from by
      rw [hpend, hbeq]; rfl)]
    rw [if_neg (show ¬(((cacheLookup m.whoisCache e.src).isSome) = true) from by
      rw [hcache]; simp)]
    refine ⟨rfl, ?_⟩
    show pendingHas (pendingAdd m.whoisPending e.src) e.src = true
    unfold pendingHas pendingAdd
    split
    · assumption
    · simp
  · intro hobs
    by_cases hpend : pendingHas m.whoisPending e.src = true
    · rw [if_neg (show ¬((m.categorize e.src == "External" &&
          !(pendingHas m.whoisPending e.src)) = true) from by
        rw [hpend]; simp)]
      exact ⟨rfl, rfl, rfl⟩
    · have hpf : pendingHas m.whoisPending e.src = false := by
        cases hb : pendingHas m.whoisPending e.src with
        | false => rfl
        | true => exact absurd hb hpend
      have hcache : (cacheLookup m.whoisCache e.src).isSome = true := by
        rcases hobs with h | h
        · exact absurd h hpend
        · exact h
      have hcond : (m.categorize e.src == "External" &&
          !(pendingHas m.whoisPending e.src)) = (m.categorize e.src == "External") := by
        rw [hpf]
        simp
      by_cases hext : (m.categorize e.src == "External") = true
      · rw [if_pos (show (m.categorize e.src == "External" &&
            !(pendingHas m.whoisPending e.src)) = true from by rw [hcond]; exact hext)]
        rw [if_pos hcache]
        exact ⟨rfl, rfl, rfl⟩
      · rw [if_neg (show ¬((m.categorize e.src == "External" &&
            !(pendingHas m.whoisPending e.src)) = true) from by rw [hcond]; exact hext)]
        exact ⟨rfl, rfl, rfl⟩

/-- Witness for `whois_dedup`: with nothing pending or cached the Enter
trigger issues exactly one query and marks it pending; with the same key
already pending, a trigger issues no command and changes nothing. -/
theorem whois_dedup_witness :
    ((update exModelW (.key "enter")).2 = some (.whoisQuery "9.9.9.9") ∧
      pendingHas (update exModelW (.key "enter")).1.whoisPending "9.9.9.9" = true) ∧
    ((update exModelW2 (.key "enter")).2 = none ∧
      (update exModelW2 (.key "enter")).1.whoisPending = exModelW2.whoisPending ∧
      (update exModelW2 (.key "enter")).1.whoisCache = exModelW2.whoisCache) :=
  ⟨(whois_dedup exModelW rfl rfl rfl (by decide) (by decide)).1 rfl (by decide) (by decide),
    (whois_dedup exModelW2 rfl rfl rfl (by decide) (by decide)).2 (Or.inl (by decide))⟩

/-! ### Regex engine soundness -/

theorem head?_mem' {α : Type} {l : List α} {a : α} (h : l.head? = some a) : a ∈ l := by
  cases l with
  | nil => cases h
  | cons x xs =>
    simp only [List.head?] at h
    injection h with h2
    rw [← h2]
    exact List.mem_cons_self x xs

/-- Every result of `starIter` is a genuine star match of a prefix. -/
theorem starIter_sound {r : RE} {g : Bool}
    (hr : ∀ (s : List Char) (a : Nat × Caps), a ∈ msplit r s →
      a.1 ≤ s.length ∧ AcceptsC r (s.take a.1) a.2) :
    ∀ (fuel : Nat) (s : List Char) (a : Nat × Caps), a ∈ starIter (msplit r) g fuel s →
      a.1 ≤ s.length ∧ AcceptsC (.star r g) (s.take a.1) a.2 := by
  intro fuel
  induction fuel with
  | zero =>
    intro s a ha
    simp only [starIter, List.mem_singleton] at ha
    subst ha
    exact ⟨Nat.zero_le _, AcceptsC.starNil⟩
  | succ n ih =>
    intro s a ha
    unfold starIter at ha
    have hmem : a ∈ ((msplit r s).filter fun b => 0 < b.1).flatMap
        (fun b => (starIter (msplit r) g n (s.drop b.1)).map
          fun b2 => (b.1 + b2.1, mergeCaps b.2 b2.2)) ∨ a = (0, emptyCaps) := by
      split at ha
      · rcases List.mem_append.mp ha with h | h
        · exact Or.inl h
        · exact Or.inr (List.mem_singleton.mp h)
      · rcases List.mem_cons.mp ha with h | h
        · exact Or.inr h
        · exact Or.inl h
    rcases hmem with hin | rfl
    · rw [List.mem_flatMap] at hin
      obtain ⟨b, hb, hmap⟩ := hin
      rw [List.mem_map] at hmap
      obtain ⟨b2, hb2, rfl⟩ := hmap
      have hbf := List.mem_filter.mp hb
      have h1 := hr s b hbf.1
      have h2 := ih (s.drop b.1) b2 hb2
      refine ⟨?_, ?_⟩
      · have hd := List.length_drop b.1 s
        omega
      · have hacc := AcceptsC.starCons h1.2 h2.2
        rwa [← List.take_add] at hacc
    · exact ⟨Nat.zero_le _, AcceptsC.starNil⟩

/-- Soundness of the matcher: every enumerated result consumes a prefix that
the relational semantics accepts with the same captures. -/
theorem msplit_sound : ∀ (re : RE) (s : List Char) (a : Nat × Caps), a ∈ msplit re s →
    a.1 ≤ s.length ∧ AcceptsC re (s.take a.1) a.2 := by
  intro re
  induction re with
  | eps =>
    intro s a ha
    simp only [msplit, List.mem_singleton] at ha
    subst ha
    exact ⟨Nat.zero_le _, AcceptsC.eps⟩
  | sym p =>
    intro s a ha
    cases s with
    | nil => cases ha
    | cons c t =>
      simp only [msplit] at ha
      split at ha
      · rcases List.mem_singleton.mp ha with rfl
        exact ⟨by simp, AcceptsC.sym (by assumption)⟩
      · cases ha
  | seq r1 r2 ih1 ih2 =>
    intro s a ha
    simp only [msplit, List.mem_flatMap, List.mem_map] at ha
    obtain ⟨b, hb, c, hc, rfl⟩ := ha
    have h1 := ih1 s b hb
    have h2 := ih2 (s.drop b.1) c hc
    refine ⟨?_, ?_⟩
    · have hd := List.length_drop b.1 s
      omega
    · have hacc := AcceptsC.seq h1.2 h2.2
      rwa [← List.take_add] at hacc
  | alt r1 r2 ih1 ih2 =>
    intro s a ha
    rcases List.mem_append.mp ha with h | h
    · have := ih1 s a h
      exact ⟨this.1, AcceptsC.altL this.2⟩
    · have := ih2 s a h
      exact ⟨this.1, AcceptsC.altR this.2⟩
  | star r g ih =>
    intro s a ha
    exact starIter_sound ih s.length s a ha
  | opt r g ih =>
    intro s a ha
    simp only [msplit] at ha
    have hmem : a ∈ msplit r s ∨ a = (0, emptyCaps) := by
      split at ha
      · rcases List.mem_append.mp ha with h | h
        · exact Or.inl h
        · exact Or.inr (List.mem_singleton.mp h)
      · rcases List.mem_cons.mp ha with h | h
        · exact Or.inr h
        · exact Or.inl h
    rcases hmem with h | rfl
    · have := ih s a h
      exact ⟨this.1, AcceptsC.optSome this.2⟩
    · exact ⟨Nat.zero_le _, AcceptsC.optNone⟩
  | group i r ih =>
    intro s a ha
    simp only [msplit, List.mem_map] at ha
    obtain ⟨b, hb, rfl⟩ := ha
    have := ih s b hb
    exact ⟨this.1, AcceptsC.group this.2⟩

/-! ### Captures only come from groups that occur in the pattern -/

theorem mergeCaps_ne_none {c1 c2 : Caps} {j : Nat} (h : mergeCaps c1 c2 j ≠ none) :
    c1 j ≠ none ∨ c2 j ≠ none := by
  unfold mergeCaps at h
  cases hc : c2 j with
  | some v => exact Or.inr (by simp [hc])
  | none =>
    rw [hc] at h
    exact Or.inl h

theorem acceptsC_caps_dom {re : RE} {s : List Char} {c : Caps} (h : AcceptsC re s c) :
    ∀ j, c j ≠ none → j ∈ groupIdxs re := by
  induction h with
  | eps => intro j hj; exact absurd rfl hj
  | sym _ => intro j hj; exact absurd rfl hj
  | seq h1 h2 ih1 ih2 =>
    intro j hj
    rcases mergeCaps_ne_none hj with h | h
    · exact List.mem_append_left _ (ih1 j h)
    · exact List.mem_append_right _ (ih2 j h)
  | altL h ih =>
    intro j hj
    exact List.mem_append_left _ (ih j hj)
  | altR h ih =>
    intro j hj
    exact List.mem_append_right _ (ih j hj)
  | starNil => intro j hj; exact absurd rfl hj
  | starCons h1 h2 ih1 ih2 =>
    intro j hj
    rcases mergeCaps_ne_none hj with h | h
    · exact ih1 j h
    · exact ih2 j h
  | optSome h ih => exact ih
  | optNone => intro j hj; exact absurd rfl hj
  | group h ih =>
    intro j hj
    unfold setCap at hj
    split at hj
    · simp_all [groupIdxs]
    · exact List.mem_cons_of_mem _ (ih j hj)

theorem caps_none_of_not_mem {re : RE} {s : List Char} {c : Caps}
    (h : AcceptsC re s c) (j : Nat) (hj : j ∉ groupIdxs re) : c j = none := by
  by_contra hne
  exact hj (acceptsC_caps_dom h j hne)

theorem merge_peel {c1 c2 : Caps} {j : Nat} (h : mergeCaps c1 c2 j ≠ none)
    (h1 : c1 j = none) : c2 j ≠ none := by
  rcases mergeCaps_ne_none h with hl | hr
  · exact absurd h1 hl
  · exact hr

/-! ### Literals and infix extraction -/

theorem acceptsC_seq_elim {r1 r2 : RE} {s : List Char} {c : Caps}
    (h : AcceptsC (.seq r1 r2) s c) :
    ∃ s1 s2 c1 c2, s = s1 ++ s2 ∧ c = mergeCaps c1 c2 ∧
      AcceptsC r1 s1 c1 ∧ AcceptsC r2 s2 c2 := by
  cases h with
  | seq h1 h2 => exact ⟨_, _, _, _, rfl, rfl, h1, h2⟩

theorem acceptsC_lit : ∀ (w s : List Char) (c : Caps), AcceptsC (litRE w) s c → s = w := by
  intro w
  induction w with
  | nil =>
    intro s c h
    unfold litRE at h
    cases h
    rfl
  | cons ch tl ih =>
    intro s c h
    unfold litRE at h
    cases h with
    | seq h1 h2 =>
      cases h1 with
      | sym hp =>
        simp only [beq_iff_eq] at hp
        subst hp
        rw [ih _ _ h2]
        rfl

theorem infix_append_right {w s2 : List Char} (s1 : List Char) (h : w <:+: s2) :
    w <:+: s1 ++ s2 :=
  h.trans (List.IsSuffix.isInfix (List.suffix_append s1 s2))

theorem infix_append_left {w s1 : List Char} (s2 : List Char) (h : w <:+: s1) :
    w <:+: s1 ++ s2 :=
  h.trans (List.IsPrefix.isInfix (List.prefix_append s1 s2))

theorem lit_seq_found {w : List Char} {r : RE} {s : List Char} {c : Caps}
    (h : AcceptsC (.seq (litRE w) r) s c) : w <:+: s := by
  obtain ⟨s1, s2, c1, c2, rfl, -, h1, h2⟩ := acceptsC_seq_elim h
  rw [acceptsC_lit w s1 c1 h1]
  exact List.IsPrefix.isInfix (List.prefix_append w s2)

/-! ### Structural facts about a successful `logLineRe` match -/

theorem reOptSPT_props {s : List Char} {c : Caps} (h : AcceptsC reOptSPT s c)
    (hc : c 9 ≠ none) : "SPT=".data <:+: s := by
  unfold reOptSPT at h
  cases h with
  | optSome hb =>
    obtain ⟨s1, s2, c1, c2, rfl, -, h1, h2⟩ := acceptsC_seq_elim hb
    exact infix_append_right s1 (lit_seq_found h2)
  | optNone => exact absurd rfl hc

theorem reOptDPT_props {s : List Char} {c : Caps} (h : AcceptsC reOptDPT s c)
    (hc : c 10 ≠ none) : "DPT=".data <:+: s := by
  unfold reOptDPT at h
  cases h with
  | optSome hb =>
    obtain ⟨s1, s2, c1, c2, rfl, -, h1, h2⟩ := acceptsC_seq_elim hb
    exact infix_append_right s1 (lit_seq_found h2)
  | optNone => exact absurd rfl hc

theorem reProto_props {s : List Char} {c : Caps} (h : AcceptsC reProto s c) :
    "PROTO=".data <:+: s ∧ (c 9 ≠ none → "SPT=".data <:+: s) ∧
    (c 10 ≠ none → "DPT=".data <:+: s) := by
  unfold reProto at h
  obtain ⟨sd, s2, cd, c2, rfl, rfl, hd, h2⟩ := acceptsC_seq_elim h
  have hp : "PROTO=".data <:+: s2 := lit_seq_found h2
  obtain ⟨sl, s3, cl, c3, rfl, rfl, hl, h3⟩ := acceptsC_seq_elim h2
  obtain ⟨s8, s4, c8, c4, rfl, rfl, h8, h4⟩ := acceptsC_seq_elim h3
  obtain ⟨sspt, sdpt, cspt, cdpt, rfl, rfl, hspt, hdpt⟩ := acceptsC_seq_elim h4
  refine ⟨infix_append_right sd hp, ?_, ?_⟩
  · intro hc
    have p1 := merge_peel hc (caps_none_of_not_mem hd 9 (by decide))
    have p2 := merge_peel p1 (caps_none_of_not_mem hl 9 (by decide))
    have p3 := merge_peel p2 (caps_none_of_not_mem h8 9 (by decide))
    have p4 : cspt 9 ≠ none := by
      rcases mergeCaps_ne_none p3 with hx | hx
      · exact hx
      · exact absurd (caps_none_of_not_mem hdpt 9 (by decide)) hx
    exact infix_append_right sd (infix_append_right sl (infix_append_right s8
      (infix_append_left sdpt (reOptSPT_props hspt p4))))
  · intro hc
    have p1 := merge_peel hc (caps_none_of_not_mem hd 10 (by decide))
    have p2 := merge_peel p1 (caps_none_of_not_mem hl 10 (by decide))
    have p3 := merge_peel p2 (caps_none_of_not_mem h8 10 (by decide))
    have p4 := merge_peel p3 (caps_none_of_not_mem hspt 10 (by decide))
    exact infix_append_right sd (infix_append_right sl (infix_append_right s8
      (infix_append_right sspt (reOptDPT_props hdpt p4))))

theorem reDst_props {s : List Char} {c : Caps} (h : AcceptsC reDst s c) :
    "PROTO=".data <:+: s ∧ (c 9 ≠ none → "SPT=".data <:+: s) ∧
    (c 10 ≠ none → "DPT=".data <:+: s) := by
  unfold reDst at h
  obtain ⟨s7, sp, c7, cp, rfl, rfl, h7, hp⟩ := acceptsC_seq_elim h
  have hP := reProto_props hp
  refine ⟨infix_append_right s7 hP.1, ?_, ?_⟩
  · intro hc
    exact infix_append_right s7
      (hP.2.1 (merge_peel hc (caps_none_of_not_mem h7 9 (by decide))))
  · intro hc
    exact infix_append_right s7
      (hP.2.2 (merge_peel hc (caps_none_of_not_mem h7 10 (by decide))))

theorem reSrc_props {s : List Char} {c : Caps} (h : AcceptsC reSrc s c) :
    "SRC=".data <:+: s ∧ "DST=".data <:+: s ∧ "PROTO=".data <:+: s ∧
    (c 9 ≠ none → "SPT=".data <:+: s) ∧ (c 10 ≠ none → "DPT=".data <:+: s) := by
  unfold reSrc at h
  obtain ⟨sd, s2, cd, c2, rfl, rfl, hd, h2⟩ := acceptsC_seq_elim h
  have hsrc : "SRC=".data <:+: s2 := lit_seq_found h2
  obtain ⟨sl, s3, cl, c3, rfl, rfl, hl, h3⟩ := acceptsC_seq_elim h2
  obtain ⟨s6, s4, c6, c4, rfl, rfl, h6, h4⟩ := acceptsC_seq_elim h3
  obtain ⟨sw, s5, cw, c5, rfl, rfl, hw, h5⟩ := acceptsC_seq_elim h4
  have hdst : "DST=".data <:+: s5 := lit_seq_found h5
  obtain ⟨sl2, s7, cl2, c7, rfl, rfl, hl2, h7⟩ := acceptsC_seq_elim h5
  have hD := reDst_props h7
  have wrap : ∀ w : List Char, w <:+: s7 →
      w <:+: sd ++ (sl ++ (s6 ++ (sw ++ (sl2 ++ s7)))) := by
    intro w hw2
    exact infix_append_right sd (infix_append_right sl (infix_append_right s6
      (infix_append_right sw (infix_append_right sl2 hw2))))
  refine ⟨infix_append_right sd hsrc,
    infix_append_right sd (infix_append_right sl (infix_append_right s6
      (infix_append_right sw hdst))), wrap _ hD.1, ?_, ?_⟩
  · intro hc
    have p1 := merge_peel hc (caps_none_of_not_mem hd 9 (by decide))
    have p2 := merge_peel p1 (caps_none_of_not_mem hl 9 (by decide))
    have p3 := merge_peel p2 (caps_none_of_not_mem h6 9 (by decide))
    have p4 := merge_peel p3 (caps_none_of_not_mem hw 9 (by decide))
    have p5 := merge_peel p4 (caps_none_of_not_mem hl2 9 (by decide))
    exact wrap _ (hD.2.1 p5)
  · intro hc
    have p1 := merge_peel hc (caps_none_of_not_mem hd 10 (by decide))
    have p2 := merge_peel p1 (caps_none_of_not_mem hl 10 (by decide))
    have p3 := merge_peel p2 (caps_none_of_not_mem h6 10 (by decide))
    have p4 := merge_peel p3 (caps_none_of_not_mem hw 10 (by decide))
    have p5 := merge_peel p4 (caps_none_of_not_mem hl2 10 (by decide))
    exact wrap _ (hD.2.2 p5)

theorem reOut_props {s : List Char} {c : Caps} (h : AcceptsC reOut s c) :
    "SRC=".data <:+: s ∧ "DST=".data <:+: s ∧ "PROTO=".data <:+: s ∧
    (c 9 ≠ none → "SPT=".data <:+: s) ∧ (c 10 ≠ none → "DPT=".data <:+: s) := by
  unfold reOut at h
  obtain ⟨sl, s2, cl, c2, rfl, rfl, hl, h2⟩ := acceptsC_seq_elim h
  obtain ⟨s5, s3, c5, c3, rfl, rfl, h5, h3⟩ := acceptsC_seq_elim h2
  have hS := reSrc_props h3
  have wrap : ∀ w : List Char, w <:+: s3 → w <:+: sl ++ (s5 ++ s3) := by
    intro w hw2
    exact infix_append_right sl (infix_append_right s5 hw2)
  refine ⟨wrap _ hS.1, wrap _ hS.2.1, wrap _ hS.2.2.1, ?_, ?_⟩
  · intro hc
    have p1 := merge_peel hc (caps_none_of_not_mem hl 9 (by decide))
    have p2 := merge_peel p1 (caps_none_of_not_mem h5 9 (by decide))
    exact wrap _ (hS.2.2.2.1 p2)
  · intro hc
    have p1 := merge_peel hc (caps_none_of_not_mem hl 10 (by decide))
    have p2 := merge_peel p1 (caps_none_of_not_mem h5 10 (by decide))
    exact wrap _ (hS.2.2.2.2 p2)

theorem reIn_props {s : List Char} {c : Caps} (h : AcceptsC reIn s c) :
    "SRC=".data <:+: s ∧ "DST=".data <:+: s ∧ "PROTO=".data <:+: s ∧
    (c 9 ≠ none → "SPT=".data <:+: s) ∧ (c 10 ≠ none → "DPT=".data <:+: s) := by
  unfold reIn at h
  obtain ⟨sl, s2, cl, c2, rfl, rfl, hl, h2⟩ := acceptsC_seq_elim h
  obtain ⟨s4, s3, c4, c3, rfl, rfl, h4, h3⟩ := acceptsC_seq_elim h2
  obtain ⟨sw, s5, cw, c5, rfl, rfl, hw, h5⟩ := acceptsC_seq_elim h3
  have hO := reOut_props h5
  have wrap : ∀ w : List Char, w <:+: s5 → w <:+: sl ++ (s4 ++ (sw ++ s5)) := by
    intro w hw2
    exact infix_append_right sl (infix_append_right s4 (infix_append_right sw hw2))
  refine ⟨wrap _ hO.1, wrap _ hO.2.1, wrap _ hO.2.2.1, ?_, ?_⟩
  · intro hc
    have p1 := merge_peel hc (caps_none_of_not_mem hl 9 (by decide))
    have p2 := merge_peel p1 (caps_none_of_not_mem h4 9 (by decide))
    have p3 := merge_peel p2 (caps_none_of_not_mem hw 9 (by decide))
    exact wrap _ (hO.2.2.2.1 p3)
  · intro hc
    have p1 := merge_peel hc (caps_none_of_not_mem hl 10 (by decide))
    have p2 := merge_peel p1 (caps_none_of_not_mem h4 10 (by decide))
    have p3 := merge_peel p2 (caps_none_of_not_mem hw 10 (by decide))
    exact wrap _ (hO.2.2.2.2 p3)

theorem reBrack_props {s : List Char} {c : Caps} (h : AcceptsC reBrack s c) :
    "SRC=".data <:+: s ∧ "DST=".data <:+: s ∧ "PROTO=".data <:+: s ∧
    (c 9 ≠ none → "SPT=".data <:+: s) ∧ (c 10 ≠ none → "DPT=".data <:+: s) := by
  unfold reBrack at h
  obtain ⟨sd, s2, cd, c2, rfl, rfl, hd, h2⟩ := acceptsC_seq_elim h
  obtain ⟨sb, s3, cb, c3, rfl, rfl, hb, h3⟩ := acceptsC_seq_elim h2
  obtain ⟨s3g, s4, c3g, c4, rfl, rfl, h3g, h4⟩ := acceptsC_seq_elim h3
  obtain ⟨sb2, s5, cb2, c5, rfl, rfl, hb2, h5⟩ := acceptsC_seq_elim h4
  obtain ⟨sw, s6, cw, c6, rfl, rfl, hw, h6⟩ := acceptsC_seq_elim h5
  have hI := reIn_props h6
  have wrap : ∀ w : List Char, w <:+: s6 →
      w <:+: sd ++ (sb ++ (s3g ++ (sb2 ++ (sw ++ s6)))) := by
    intro w hw2
    exact infix_append_right sd (infix_append_right sb (infix_append_right s3g
      (infix_append_right sb2 (infix_append_right sw hw2))))
  refine ⟨wrap _ hI.1, wrap _ hI.2.1, wrap _ hI.2.2.1, ?_, ?_⟩
  · intro hc
    have p1 := merge_peel hc (caps_none_of_not_mem hd 9 (by decide))
    have p2 := merge_peel p1 (caps_none_of_not_mem hb 9 (by decide))
    have p3 := merge_peel p2 (caps_none_of_not_mem h3g 9 (by decide))
    have p4 := merge_peel p3 (caps_none_of_not_mem hb2 9 (by decide))
    have p5 := merge_peel p4 (caps_none_of_not_mem hw 9 (by decide))
    exact wrap _ (hI.2.2.2.1 p5)
  · intro hc
    have p1 := merge_peel hc (caps_none_of_not_mem hd 10 (by decide))
    have p2 := merge_peel p1 (caps_none_of_not_mem hb 10 (by decide))
    have p3 := merge_peel p2 (caps_none_of_not_mem h3g 10 (by decide))
    have p4 := merge_peel p3 (caps_none_of_not_mem hb2 10 (by decide))
    have p5 := merge_peel p4 (caps_none_of_not_mem hw 10 (by decide))
    exact wrap _ (hI.2.2.2.2 p5)

theorem logRe_props {s : List Char} {c : Caps} (h : AcceptsC logRe s c) :
    (∃ s1 c1, s1 <+: s ∧ AcceptsC tsAlt s1 c1) ∧
    "SRC=".data <:+: s ∧ "DST=".data <:+: s ∧ "PROTO=".data <:+: s ∧
    (c 9 ≠ none → "SPT=".data <:+: s) ∧ (c 10 ≠ none → "DPT=".data <:+: s) := by
  unfold logRe at h
  obtain ⟨s1, s2, c1, c2, rfl, rfl, h1, h2⟩ := acceptsC_seq_elim h
  obtain ⟨sw, s3, cw, c3, rfl, rfl, hw, h3⟩ := acceptsC_seq_elim h2
  obtain ⟨sh, s4, ch4, c4, rfl, rfl, hh, h4⟩ := acceptsC_seq_elim h3
  obtain ⟨sw2, s5, cw2, c5, rfl, rfl, hw2, h5⟩ := acceptsC_seq_elim h4
  obtain ⟨sk, s6, ck, c6, rfl, rfl, hk, h6⟩ := acceptsC_seq_elim h5
  have hB := reBrack_props h6
  have wrap : ∀ w : List Char, w <:+: s6 →
      w <:+: s1 ++ (sw ++ (sh ++ (sw2 ++ (sk ++ s6)))) := by
    intro w hw3
    exact infix_append_right s1 (infix_append_right sw (infix_append_right sh
      (infix_append_right sw2 (infix_append_right sk hw3))))
  refine ⟨?_, wrap _ hB.1, wrap _ hB.2.1, wrap _ hB.2.2.1, ?_, ?_⟩
  · cases h1 with
    | group hts => exact ⟨s1, _, List.prefix_append s1 _, hts⟩
  · intro hc
    have p1 := merge_peel hc (caps_none_of_not_mem h1 9 (by decide))
    have p2 := merge_peel p1 (caps_none_of_not_mem hw 9 (by decide))
    have p3 := merge_peel p2 (caps_none_of_not_mem hh 9 (by decide))
    have p4 := merge_peel p3 (caps_none_of_not_mem hw2 9 (by decide))
    have p5 := merge_peel p4 (caps_none_of_not_mem hk 9 (by decide))
    exact wrap _ (hB.2.2.2.1 p5)
  · intro hc
    have p1 := merge_peel hc (caps_none_of_not_mem h1 10 (by decide))
    have p2 := merge_peel p1 (caps_none_of_not_mem hw 10 (by decide))
    have p3 := merge_peel p2 (caps_none_of_not_mem hh 10 (by decide))
    have p4 := merge_peel p3 (caps_none_of_not_mem hw2 10 (by decide))
    have p5 := merge_peel p4 (caps_none_of_not_mem hk 10 (by decide))
    exact wrap _ (hB.2.2.2.2 p5)

/-- Any string accepted by either timestamp alternative starts with a digit
(ISO form) or a word character (syslog form). -/
theorem tsAlt_head {s : List Char} {c : Caps} (h : AcceptsC tsAlt s c) :
    ∃ ch t, s = ch :: t ∧ (isDigitCh ch = true ∨ isWordCh ch = true) := by
  unfold tsAlt at h
  cases h with
  | altL hi =>
    unfold tsIso at hi
    obtain ⟨s1, s2, c1, c2, rfl, -, h1, -⟩ := acceptsC_seq_elim hi
    cases h1 with
    | sym hp => exact ⟨_, s2, rfl, Or.inl hp⟩
  | altR hs =>
    unfold tsSyslog at hs
    obtain ⟨s1, s2, c1, c2, rfl, -, h1, -⟩ := acceptsC_seq_elim hs
    cases h1 with
    | sym hp => exact ⟨_, s2, rfl, Or.inr hp⟩

/-! ### Unanchored search soundness (TTL/LEN scavenger scans) -/

theorem findCaps_sound {re : RE} : ∀ (s : List Char) (c : Caps),
    findCaps re s = some c → ∃ t, t <:+ s ∧ ∃ n, (n, c) ∈ msplit re t := by
  intro s
  induction s with
  | nil =>
    intro c h
    unfold findCaps at h
    cases hh : (msplit re []).head? with
    | none => rw [hh] at h; cases h
    | some r =>
      rw [hh] at h
      simp only [Option.map_some'] at h
      injection h with h2
      exact ⟨[], List.suffix_refl [], r.1, by rw [← h2]; exact head?_mem' hh⟩
  | cons a t ih =>
    intro c h
    unfold findCaps at h
    cases hh : (msplit re (a :: t)).head? with
    | some r =>
      rw [hh] at h
      injection h with h2
      exact ⟨a :: t, List.suffix_refl _, r.1, by rw [← h2]; exact head?_mem' hh⟩
    | none =>
      rw [hh] at h
      obtain ⟨t2, ht2, n, hm⟩ := ih c h
      exact ⟨t2, ht2.trans (List.suffix_cons a t), n, hm⟩

theorem findCapsB_sound {re : RE} : ∀ (s : List Char) (prev : Option Char) (c : Caps),
    findCapsB re prev s = some c → ∃ t, t <:+ s ∧ ∃ n, (n, c) ∈ msplit re t := by
  intro s
  induction s with
  | nil =>
    intro prev c h
    cases h
  | cons a t ih =>
    intro prev c h
    unfold findCapsB at h
    split at h
    · cases hh : (msplit re (a :: t)).head? with
      | some r =>
        rw [hh] at h
        injection h with h2
        exact ⟨a :: t, List.suffix_refl _, r.1, by rw [← h2]; exact head?_mem' hh⟩
      | none =>
        rw [hh] at h
        obtain ⟨t2, ht2, n, hm⟩ := ih (some a) c h
        exact ⟨t2, ht2.trans (List.suffix_cons a t), n, hm⟩
    · obtain ⟨t2, ht2, n, hm⟩ := ih (some a) c h
      exact ⟨t2, ht2.trans (List.suffix_cons a t), n, hm⟩

theorem findCaps_ttl_found {s : List Char} {c : Caps}
    (h : findCaps ttlPat s = some c) : "TTL=".data <:+: s := by
  obtain ⟨t, ht, n, hm⟩ := findCaps_sound s c h
  have hs := msplit_sound ttlPat t (n, c) hm
  have hin : "TTL=".data <:+: t.take n := lit_seq_found hs.2
  exact List.IsInfix.trans (hin.trans (List.IsPrefix.isInfix (List.take_prefix n t))) (List.IsSuffix.isInfix ht)

theorem findCapsB_len_found {s : List Char} {c : Caps}
    (h : findCapsB lenPat none s = some c) : "LEN=".data <:+: s := by
  obtain ⟨t, ht, n, hm⟩ := findCapsB_sound s none c h
  have hs := msplit_sound lenPat t (n, c) hm
  have hin : "LEN=".data <:+: t.take n := lit_seq_found hs.2
  exact List.IsInfix.trans (hin.trans (List.IsPrefix.isInfix (List.take_prefix n t))) (List.IsSuffix.isInfix ht)

/-! ### Relating the Bool containment test to `IsInfix` -/

theorem infixOfB_true_intro : ∀ (hay w : List Char), w <:+: hay → infixOfB w hay = true := by
  intro hay
  induction hay with
  | nil =>
    intro w h
    rw [List.infix_nil.mp h]
    rfl
  | cons a t ih =>
    intro w h
    obtain ⟨s, t2, hst⟩ := h
    unfold infixOfB
    cases s with
    | nil =>
      have hpre : w <+: a :: t := ⟨t2, by simpa using hst⟩
      rw [List.isPrefixOf_iff_prefix.mpr hpre]
      simp
    | cons b bs =>
      have hti : w <:+: t := by
        rw [List.cons_append] at hst
        injection hst with h1 h2
        exact ⟨bs, t2, by simpa using h2⟩
      rw [ih w hti]
      simp

/-! ### C5 — ParseLine error handling -/

theorem parseLine_match_facts (line : String) :
    ∀ n caps, findSubmatch logRe line.data = some (n, caps) →
      (∃ s1 c1, s1 <+: line.data ∧ AcceptsC tsAlt s1 c1) ∧
      "SRC=".data <:+: line.data ∧ "DST=".data <:+: line.data ∧
      "PROTO=".data <:+: line.data ∧
      (caps 9 ≠ none → "SPT=".data <:+: line.data) ∧
      (caps 10 ≠ none → "DPT=".data <:+: line.data) := by
  intro n caps hf
  have hmem : (n, caps) ∈ msplit logRe line.data := head?_mem' hf
  have hs := msplit_sound logRe line.data (n, caps) hmem
  have hp := logRe_props hs.2
  have htake : line.data.take n <+: line.data := List.take_prefix n line.data
  refine ⟨?_, hp.2.1.trans (List.IsPrefix.isInfix htake),
    hp.2.2.1.trans (List.IsPrefix.isInfix htake),
    hp.2.2.2.1.trans (List.IsPrefix.isInfix htake), ?_, ?_⟩
  · obtain ⟨s1, c1, hpre, hacc⟩ := hp.1
    exact ⟨s1, c1, hpre.trans htake, hacc⟩
  · intro hc
    exact List.IsInfix.trans (hp.2.2.2.2.1 hc) (List.IsPrefix.isInfix htake)
  · intro hc
    exact List.IsInfix.trans (hp.2.2.2.2.2 hc) (List.IsPrefix.isInfix htake)

/-- C5: `ParseLine` is total (it returns an `error` value, never a panic —
`parseLineM` is a total Lean function) and fails on every line lacking a
mandatory `SRC=`/`DST=`/`PROTO=` token or a recognisable leading timestamp
(no prefix of the line matches either timestamp shape); and on every line it
does accept, a missing `SPT=`/`DPT=`/`TTL=`/`LEN=` token is not an error —
the corresponding field is the zero sentinel meaning absent. -/
theorem parseLine_mandatory_tokens (line : String) :
    (infixOfB "SRC=".data line.data = false → isOkE (parseLineM line) = false) ∧
    (infixOfB "DST=".data line.data = false → isOkE (parseLineM line) = false) ∧
    (infixOfB "PROTO=".data line.data = false → isOkE (parseLineM line) = false) ∧
    ((∀ s1 c1, s1 <+: line.data → ¬ AcceptsC tsAlt s1 c1) →
      isOkE (parseLineM line) = false) ∧
    (∀ e, parseLineM line = .ok e →
      (infixOfB "SPT=".data line.data = false → e.srcPort = 0) ∧
      (infixOfB "DPT=".data line.data = false → e.dstPort = 0) ∧
      (infixOfB "TTL=".data line.data = false → e.ttl = 0) ∧
      (infixOfB "LEN=".data line.data = false → e.lenB = 0)) := by
  refine ⟨?_, ?_, ?_, ?_, ?_⟩
  · intro hnot
    unfold parseLineM
    cases hf : findSubmatch logRe line.data with
    | none => rfl
    | some r =>
      exfalso
      obtain ⟨n, caps⟩ := r
      have hsrc := (parseLine_match_facts line n caps hf).2.1
      have hb := infixOfB_true_intro _ _ hsrc
      rw [hnot] at hb
      exact Bool.false_ne_true hb
  · intro hnot
    unfold parseLineM
    cases hf : findSubmatch logRe line.data with
    | none => rfl
    | some r =>
      exfalso
      obtain ⟨n, caps⟩ := r
      have hdst := (parseLine_match_facts line n caps hf).2.2.1
      have hb := infixOfB_true_intro _ _ hdst
      rw [hnot] at hb
      exact Bool.false_ne_true hb
  · intro hnot
    unfold parseLineM
    cases hf : findSubmatch logRe line.data with
    | none => rfl
    | some r =>
      exfalso
      obtain ⟨n, caps⟩ := r
      have hpr := (parseLine_match_facts line n caps hf).2.2.2.1
      have hb := infixOfB_true_intro _ _ hpr
      rw [hnot] at hb
      exact Bool.false_ne_true hb
  · intro hno
    unfold parseLineM
    cases hf : findSubmatch logRe line.data with
    | none => rfl
    | some r =>
      exfalso
      obtain ⟨n, caps⟩ := r
      obtain ⟨s1, c1, hpre, hacc⟩ := (parseLine_match_facts line n caps hf).1
      exact hno s1 c1 hpre hacc
  · intro e
    unfold parseLineM
    cases hf : findSubmatch logRe line.data with
    | none => exact fun he => Except.noConfusion he
    | some r =>
      obtain ⟨n, caps⟩ := r
      cases hts : parseTimestampM (capL caps 1) with
      | none =>
        dsimp only
        rw [hts]
        exact fun he => Except.noConfusion he
      | some ts =>
        dsimp only
        rw [hts]
        intro he
        injection he with he2
        subst he2
        refine ⟨?_, ?_, ?_, ?_⟩
        · intro hnot
          show (if (capL caps 9).isEmpty then 0 else atoiDigits (capL caps 9)) = 0
          cases hc9 : caps 9 with
          | none =>
            rw [show capL caps 9 = [] from by simp [capL, hc9]]
            rfl
          | some v =>
            exfalso
            have h9 : caps 9 ≠ none := by simp [hc9]
            have hin := (parseLine_match_facts line n caps hf).2.2.2.2.1 h9
            have hb := infixOfB_true_intro _ _ hin
            rw [hnot] at hb
            exact Bool.false_ne_true hb
        · intro hnot
          show (if (capL caps 10).isEmpty then 0 else atoiDigits (capL caps 10)) = 0
          cases hc10 : caps 10 with
          | none =>
            rw [show capL caps 10 = [] from by simp [capL, hc10]]
            rfl
          | some v =>
            exfalso
            have h10 : caps 10 ≠ none := by simp [hc10]
            have hin := (parseLine_match_facts line n caps hf).2.2.2.2.2 h10
            have hb := infixOfB_true_intro _ _ hin
            rw [hnot] at hb
            exact Bool.false_ne_true hb
        · intro hnot
          show (match findCaps ttlPat line.data with
            | some c2 => atoiDigits (capL c2 1)
            | none => 0) = 0
          cases hft : findCaps ttlPat line.data with
          | none => rfl
          | some c2 =>
            exfalso
            have hin := findCaps_ttl_found hft
            have hb := infixOfB_true_intro _ _ hin
            rw [hnot] at hb
            exact Bool.false_ne_true hb
        · intro hnot
          show (match findCapsB lenPat none line.data with
            | some c2 => atoiDigits (capL c2 1)
            | none => 0) = 0
          cases hfl : findCapsB lenPat none line.data with
          | none => rfl
          | some c2 =>
            exfalso
            have hin := findCapsB_len_found hfl
            have hb := infixOfB_true_intro _ _ hin
            rw [hnot] at hb
            exact Bool.false_ne_true hb

/-- Witness for `parseLine_mandatory_tokens`: a line with no `SRC=` fails, a
line with no recognisable leading timestamp fails, and the well-formed
`lineEx` (which carries none of SPT/DPT/TTL/LEN) parses with all four
optional fields at their zero sentinel. -/
theorem parseLine_mandatory_tokens_witness :
    isOkE (parseLineM lineNoSrc) = false ∧
    isOkE (parseLineM lineTsBad) = false ∧
    parseLineM lineEx = .ok eEx ∧
    eEx.srcPort = 0 ∧ eEx.dstPort = 0 ∧ eEx.ttl = 0 ∧ eEx.lenB = 0 := by
  have hok : parseLineM lineEx = .ok eEx := by
    have h : (parseLineM lineEx).toOption = some eEx := by decide
    cases hp : parseLineM lineEx with
    | error s =>
      rw [hp] at h
      cases h
    | ok a =>
      rw [hp] at h
      simp only [Except.toOption] at h
      injection h with h2
      rw [h2]
  have hts : ∀ s1 c1, s1 <+: lineTsBad.data → ¬ AcceptsC tsAlt s1 c1 := by
    intro s1 c1 hpre hacc
    obtain ⟨ch, t, rfl, hch⟩ := tsAlt_head hacc
    obtain ⟨t2, heq⟩ := hpre
    have hhead : lineTsBad.data.head? = some ch := by rw [← heq]; rfl
    have hhead2 : lineTsBad.data.head? = some '!' := by decide
    rw [hhead] at hhead2
    injection hhead2 with hh
    subst hh
    rcases hch with h | h
    · exact absurd h (by decide)
    · exact absurd h (by decide)
  exact ⟨(parseLine_mandatory_tokens lineNoSrc).1 (by decide),
    (parseLine_mandatory_tokens lineTsBad).2.2.2.1 hts,
    hok,
    ((parseLine_mandatory_tokens lineEx).2.2.2.2 eEx hok).1 (by decide),
    ((parseLine_mandatory_tokens lineEx).2.2.2.2 eEx hok).2.1 (by decide),
    ((parseLine_mandatory_tokens lineEx).2.2.2.2 eEx hok).2.2.1 (by decide),
    ((parseLine_mandatory_tokens lineEx).2.2.2.2 eEx hok).2.2.2 (by decide)⟩

end IptablesTui
